import Mathlib

/-!
Verification development for the FreeScholar backend write-path and
session-state core: a shallow embedding of the publication write
coordinator (src/api/handlers/publication.go), the session/auth
gatekeeper (src/api/middleware/auth.go) and the user/session handlers
(src/api/handlers/user.go), together with theorems about atomicity of
the relational transaction, revocation of session tokens, single-use
password-reset tokens, full-replace association semantics, and the
independence of the HTTP outcome from search-index synchronization.
Time is modelled in unix seconds as `Nat`.
-/

namespace FreeScholar

/-- Claims carried by a signed JWT issued by this backend: subject user id
(`sub`), absolute expiry in unix seconds (`exp`), and the optional `type`
claim, which is `password_reset` for reset tokens and absent for session
tokens. -/
structure Claims where
  sub : Nat
  exp : Nat
  typ : Option String
deriving Repr, DecidableEq

/-- Wire form of a token string: either a token correctly HMAC-signed with
the server secret, carrying its claims, or any other string (wrong secret,
wrong algorithm, or not a JWT at all). -/
inductive TokenStr where
  | signed (c : Claims)
  | garbage (s : String)
deriving Repr, DecidableEq

/-- Redis keys used by the handlers. The Go code builds them as
`blacklist:<token>`, `password_reset:<token>` and `user_tokens:<token>`;
the tag is part of the key, so the three key spaces never collide. -/
inductive KKey where
  | blacklist (t : TokenStr)
  | passwordReset (t : TokenStr)
  | userTokens (t : TokenStr)
deriving Repr, DecidableEq

/-- Key-value store state: each live key with its absolute expiry instant.
The handlers never read a stored value back (the one `GET` discards its
result), so only key liveness is modelled. `SET key value TTL` upserts the
key with expiry `now + ttl`; `EXISTS` and `GET` see a key while the current
instant is strictly before its expiry; `DEL` removes it. -/
structure KV where
  entries : List (KKey × Nat)
deriving Repr, DecidableEq

/-- Empty key-value store. -/
def KV.empty : KV := ⟨[]⟩

/-- SET with TTL: upsert, storing the absolute expiry `now + ttl`. -/
def KV.set (kv : KV) (k : KKey) (now ttl : Nat) : KV :=
  ⟨(k, now + ttl) :: kv.entries.filter (fun e => e.1 != k)⟩

/-- EXISTS at instant `now`: a key is visible while `now` is before its expiry. -/
def KV.existsAt (kv : KV) (k : KKey) (now : Nat) : Bool :=
  kv.entries.any (fun e => e.1 == k && decide (now < e.2))

/-- GET at instant `now`, returning the entry expiry when the key is live. -/
def KV.getAt (kv : KV) (k : KKey) (now : Nat) : Option Nat :=
  (kv.entries.find? (fun e => e.1 == k && decide (now < e.2))).map (fun e => e.2)

/-- DEL: remove the key. -/
def KV.del (kv : KV) (k : KKey) : KV :=
  ⟨kv.entries.filter (fun e => e.1 != k)⟩

/-- HTTP response as the handlers produce it: status code and the string in
the JSON `error` or `message` field. -/
structure Response where
  status : Nat
  message : String
deriving Repr, DecidableEq

/-- Modelled external collaborator: golang-jwt v5 `jwt.Parse` with the
handlers' key function. It succeeds exactly on a token HMAC-signed with the
server secret whose registered `exp` claim is still in the future; v5
validates expiry inside `Parse` with zero leeway, so a token is rejected
once `now ≥ exp`. -/
def jwtParse (t : TokenStr) (now : Nat) : Option Claims :=
  match t with
  | .signed c => if now < c.exp then some c else none
  | .garbage _ => none

/-- Shape of the inbound `Authorization` header as the middleware
distinguishes it: absent, present but not of the two-part `Bearer <token>`
shape, or a well-shaped bearer header carrying a token string. -/
inductive AuthHeader where
  | missing
  | malformed (s : String)
  | bearer (t : TokenStr)
deriving Repr, DecidableEq

/-- RequireAuth middleware (src/api/middleware/auth.go): header presence and
shape checks, the Redis blacklist lookup (`redisOk = false` models the
lookup itself failing), `jwt.Parse`, the in-handler expiry re-check, and
subject extraction. On success it yields the authenticated user id. -/
def requireAuth (redisOk : Bool) (kv : KV) (now : Nat) (h : AuthHeader) :
    Except Response Nat :=
  match h with
  | .missing => .error ⟨401, "Authorization header is required"⟩
  | .malformed _ =>
      .error ⟨401, "Authorization header format must be Bearer \x7btoken\x7d"⟩
  | .bearer t =>
    if !redisOk then .error ⟨500, "Failed to validate token"⟩
    else if kv.existsAt (.blacklist t) now then
      .error ⟨401, "Token has been invalidated"⟩
    else
      match jwtParse t now with
      | none => .error ⟨401, "Invalid or expired token"⟩
      | some c =>
        if c.exp < now then .error ⟨401, "Token has expired"⟩
        else .ok c.sub

/-- Seven days in seconds: the session token lifetime and the blacklist TTL. -/
def weekSeconds : Nat := 7 * 24 * 60 * 60

/-- Twenty-four hours in seconds: the reset token lifetime and presence TTL. -/
def daySeconds : Nat := 24 * 60 * 60

/-- Session token minted by Login: subject, expiry one week out, no type claim. -/
def issueSessionToken (uid now : Nat) : TokenStr :=
  .signed ⟨uid, now + weekSeconds, none⟩

/-- Redis side effect of Login: stores `user_tokens:<token>` with a one-week TTL. -/
def loginStore (kv : KV) (t : TokenStr) (now : Nat) : KV :=
  kv.set (.userTokens t) now weekSeconds

/-- Logout handler (src/api/handlers/user.go): blacklists the presented
token under `blacklist:<token>` with the fixed TTL `time.Hour*24*7`, the
same constant as the session token lifetime, regardless of how much
lifetime the token actually has left. `redisOk = false` models the Redis
write failing. -/
def logout (redisOk : Bool) (kv : KV) (t : TokenStr) (now : Nat) : KV × Response :=
  if !redisOk then (kv, ⟨500, "Failed to logout"⟩)
  else (kv.set (.blacklist t) now weekSeconds, ⟨200, "Logout successful"⟩)

/-- Reset token minted by RequestPasswordReset: 24-hour expiry and the
`password_reset` type claim. -/
def issueResetToken (uid now : Nat) : TokenStr :=
  .signed ⟨uid, now + daySeconds, some "password_reset"⟩

/-- Redis side effect of RequestPasswordReset: the presence entry
`password_reset:<token>` with a 24-hour TTL. -/
def resetRequestStore (kv : KV) (t : TokenStr) (now : Nat) : KV :=
  kv.set (.passwordReset t) now daySeconds

/-- User row, reduced to the fields the reset path touches. -/
structure User where
  id : Nat
  password : String
deriving Repr, DecidableEq

/-- Modelled external collaborator: bcrypt hashing used by
models.HashPassword, kept abstract as an injective tagging of the input. -/
def hashPassword (p : String) : String := "bcrypt$" ++ p

/-- ResetPassword handler (src/api/handlers/user.go): input binding
(password at least 8 characters), `jwt.Parse` of the path token, the
`type = password_reset` check, the Redis presence check, the user lookup by
the token subject, the credential update, and deletion of the presence
entry. -/
def resetPassword (kv : KV) (users : List User) (t : TokenStr)
    (newPassword : String) (now : Nat) : KV × List User × Response :=
  if newPassword.length < 8 then
    (kv, users,
      ⟨400, "Key: Password Error:Field validation for Password failed on the min tag"⟩)
  else
    match jwtParse t now with
    | none => (kv, users, ⟨400, "Invalid or expired token"⟩)
    | some c =>
      if c.typ ≠ some "password_reset" then
        (kv, users, ⟨400, "Invalid token type"⟩)
      else if !(kv.getAt (.passwordReset t) now).isSome then
        (kv, users, ⟨400, "Invalid or expired token"⟩)
      else
        match users.find? (fun u => u.id == c.sub) with
        | none => (kv, users, ⟨404, "User not found"⟩)
        | some _ =>
          (kv.del (.passwordReset t),
           users.map (fun u =>
             if u.id == c.sub then { u with password := hashPassword newPassword } else u),
           ⟨200, "Password has been reset successfully"⟩)

/-- Days in each month, February depending on the leap year, as Go
`time.Parse` enforces when checking a day of month. -/
def daysInMonth (y m : Nat) : Nat :=
  if m = 2 then (if (y % 4 = 0 && decide (y % 100 ≠ 0)) || y % 400 = 0 then 29 else 28)
  else if m = 4 ∨ m = 6 ∨ m = 9 ∨ m = 11 then 30 else 31

/-- Modelled external collaborator: Go `time.Parse("2006-01-02", s)`.
Accepts exactly ten characters `YYYY-MM-DD` with a valid month and a valid
day of that month, returning the date as (year, month, day). -/
def parseDate (s : String) : Option (Nat × Nat × Nat) :=
  match s.toList with
  | [y1, y2, y3, y4, '-', m1, m2, '-', d1, d2] =>
    if y1.isDigit && y2.isDigit && y3.isDigit && y4.isDigit
        && m1.isDigit && m2.isDigit && d1.isDigit && d2.isDigit then
      let y := ((y1.toNat - 48) * 10 + (y2.toNat - 48)) * 100
                 + (y3.toNat - 48) * 10 + (y4.toNat - 48)
      let m := (m1.toNat - 48) * 10 + (m2.toNat - 48)
      let d := (d1.toNat - 48) * 10 + (d2.toNat - 48)
      if 1 ≤ m && m ≤ 12 && 1 ≤ d && d ≤ daysInMonth y m then some (y, m, d)
      else none
    else none
  | _ => none

/-- Publication row (internal/models), scalar columns only; associations
live in separate join rows. -/
structure Publication where
  id : Nat
  title : String
  abstract : String
  doi : String
  publicationDate : Option (Nat × Nat × Nat)
  journal : String
  volume : String
  issue : String
  pages : String
  publisher : String
  url : String
  citationCount : Nat
deriving Repr, DecidableEq

/-- Keyword row: identity and unique name. -/
structure Keyword where
  id : Nat
  name : String
deriving Repr, DecidableEq

/-- Author row, reduced to identity and name. -/
structure Author where
  id : Nat
  name : String
deriving Repr, DecidableEq

/-- Ordered publication-author join row carrying the `order` column. -/
structure PublicationAuthor where
  publicationID : Nat
  authorID : Nat
  order : Nat
deriving Repr, DecidableEq

/-- Relational database state touched by the publication handlers:
publication, keyword and author tables, the unordered keyword join rows
(publication id, keyword id), the ordered author join rows, and the
auto-increment counters for fresh publication and keyword ids. -/
structure DB where
  pubs : List Publication
  keywords : List Keyword
  authors : List Author
  kwAssocs : List (Nat × Nat)
  pubAuthors : List PublicationAuthor
  nextPubID : Nat
  nextKwID : Nat
deriving Repr, DecidableEq

/-- Fault injection for the storage collaborator: each flag makes the
matching category of statement fail, standing for a constraint violation or
an engine error at that step. -/
structure Faults where
  beginFail : Bool
  insertPubFail : Bool
  updatePubFail : Bool
  insertKwFail : Bool
  kwAssocFail : Bool
  clearKwFail : Bool
  insertPubAuthorFail : Bool
  clearAuthorsFail : Bool
  deletePubFail : Bool
  commitFail : Bool
deriving Repr, DecidableEq

/-- Fault configuration in which every storage statement succeeds. -/
def noFaults : Faults :=
  ⟨false, false, false, false, false, false, false, false, false, false⟩

/-- Request body for creating or updating a publication
(handlers.PublicationInput). -/
structure PublicationInput where
  title : String
  abstract : String
  doi : String
  publicationDate : String
  journal : String
  volume : String
  issue : String
  pages : String
  publisher : String
  url : String
  keywords : List String
  authors : List Nat
deriving Repr, DecidableEq

/-- Lookup of a keyword row by name (`tx.Where("name = ?", keyword).First`). -/
def findKeywordByName (kws : List Keyword) (name : String) : Option Keyword :=
  kws.find? (fun k => k.name == name)

/-- Lookup of an author row by primary key (`tx.First(&author, authorID)`). -/
def findAuthorByID (db : DB) (aid : Nat) : Option Author :=
  db.authors.find? (fun a => a.id == aid)

/-- Lookup of a publication row by primary key. -/
def findPubByID (db : DB) (pid : Nat) : Option Publication :=
  db.pubs.find? (fun p => p.id == pid)

/-- GORM `Association("Keywords").Append`: insert the join row
(publication id, keyword id) unless it is already present; Append upserts
on the join table's composite key, so it never duplicates a row. -/
def appendKwAssoc (tx : DB) (pid kid : Nat) : DB :=
  if tx.kwAssocs.contains (pid, kid) then tx
  else { tx with kwAssocs := tx.kwAssocs ++ [(pid, kid)] }

/-- Keyword loop shared by CreatePublication and UpdatePublication: for each
input name, find the keyword by name, create it when absent, then associate
it with the publication; the first failure aborts with the handler's error
response, standing for the rollback path. -/
def processKeywords (f : Faults) (pid : Nat) : List String → DB → Except Response DB
  | [], tx => .ok tx
  | name :: rest, tx =>
    match findKeywordByName tx.keywords name with
    | some kw =>
      if f.kwAssocFail then .error ⟨500, "Failed to associate keyword"⟩
      else processKeywords f pid rest (appendKwAssoc tx pid kw.id)
    | none =>
      if f.insertKwFail then .error ⟨500, "Failed to create keyword"⟩
      else
        let tx' : DB :=
          { tx with keywords := tx.keywords ++ [⟨tx.nextKwID, name⟩],
                    nextKwID := tx.nextKwID + 1 }
        if f.kwAssocFail then .error ⟨500, "Failed to associate keyword"⟩
        else processKeywords f pid rest (appendKwAssoc tx' pid tx.nextKwID)

/-- Author loop shared by CreatePublication and UpdatePublication: verify
each author id exists, then insert a PublicationAuthor row whose `order` is
the author's position in the input list, counting from `i`. -/
def processAuthors (f : Faults) (pid : Nat) : Nat → List Nat → DB → Except Response DB
  | _, [], tx => .ok tx
  | i, aid :: rest, tx =>
    match findAuthorByID tx aid with
    | none => .error ⟨400, "Author not found: " ++ toString aid⟩
    | some a =>
      if f.insertPubAuthorFail then .error ⟨500, "Failed to associate author"⟩
      else processAuthors f pid (i + 1) rest
        { tx with pubAuthors := tx.pubAuthors ++ [⟨pid, a.id, i⟩] }

/-- Response gin produces when the required Title binding fails on
ShouldBindJSON. -/
def titleBindError : Response :=
  ⟨400, "Key: PublicationInput.Title Error:Field validation for Title failed on the required tag"⟩

/-- DOI unique constraint: a write of a publication row fails when its DOI
is non-empty and collides with a different existing row. -/
def doiConflict (db : DB) (pid : Nat) (doi : String) : Bool :=
  doi != "" && db.pubs.any (fun p => p.id != pid && p.doi == doi)

/-- CreatePublication handler (src/api/handlers/publication.go): the
context-identity check, input binding, date validation, then one
transaction inserting the publication row, running the keyword
find-or-create/associate loop and the ordered author loop, and committing.
Every failure rolls the transaction back, returning the original database
with the handler's error response. -/
def createPublication (f : Faults) (userID : Option Nat) (input : PublicationInput)
    (db : DB) : DB × Response :=
  match userID with
  | none => (db, ⟨401, "Unauthorized"⟩)
  | some _ =>
    if input.title = "" then (db, titleBindError)
    else
      match parseDate input.publicationDate with
      | none => (db, ⟨400, "Invalid publication date format. Use YYYY-MM-DD"⟩)
      | some d =>
        if f.beginFail then (db, ⟨500, "Failed to start transaction"⟩)
        else
          let pid := db.nextPubID
          let pub : Publication :=
            { id := pid, title := input.title, abstract := input.abstract,
              doi := input.doi, publicationDate := some d,
              journal := input.journal, volume := input.volume,
              issue := input.issue, pages := input.pages,
              publisher := input.publisher, url := input.url, citationCount := 0 }
          if f.insertPubFail || doiConflict db pid input.doi then
            (db, ⟨500, "Failed to create publication"⟩)
          else
            let tx : DB := { db with pubs := db.pubs ++ [pub], nextPubID := pid + 1 }
            match processKeywords f pid input.keywords tx with
            | .error r => (db, r)
            | .ok tx1 =>
              match processAuthors f pid 0 input.authors tx1 with
              | .error r => (db, r)
              | .ok tx2 =>
                if f.commitFail then (db, ⟨500, "Failed to commit transaction"⟩)
                else (tx2, ⟨201, "Publication created successfully"⟩)

/-- Date handling of UpdatePublication: an empty date string means the
stored date is kept; a non-empty one must parse. -/
def parseDateOpt (s : String) : Option (Option (Nat × Nat × Nat)) :=
  if s = "" then some none else (parseDate s).map some

/-- Scalar column update map of UpdatePublication: every scalar field is
overwritten from the input; the date only when provided. -/
def updateScalars (pub : Publication) (input : PublicationInput)
    (d : Option (Nat × Nat × Nat)) : Publication :=
  { pub with
    title := input.title, abstract := input.abstract, doi := input.doi,
    journal := input.journal, volume := input.volume, issue := input.issue,
    pages := input.pages, publisher := input.publisher, url := input.url,
    publicationDate := match d with | some d' => some d' | none => pub.publicationDate }

/-- Keyword stage of UpdatePublication: only when the input list is
non-empty, clear every keyword join row of this publication, then run the
shared keyword loop. -/
def updateKeywordsStage (f : Faults) (pid : Nat) (names : List String) (tx : DB) :
    Except Response DB :=
  if names.isEmpty then .ok tx
  else if f.clearKwFail then .error ⟨500, "Failed to clear keywords"⟩
  else processKeywords f pid names
    { tx with kwAssocs := tx.kwAssocs.filter (fun e => e.1 != pid) }

/-- Author stage of UpdatePublication: only when the input list is
non-empty, delete every PublicationAuthor row of this publication, then run
the shared author loop. -/
def updateAuthorsStage (f : Faults) (pid : Nat) (aids : List Nat) (tx : DB) :
    Except Response DB :=
  if aids.isEmpty then .ok tx
  else if f.clearAuthorsFail then .error ⟨500, "Failed to clear author associations"⟩
  else processAuthors f pid 0 aids
    { tx with pubAuthors := tx.pubAuthors.filter (fun r => r.publicationID != pid) }

/-- UpdatePublication handler (src/api/handlers/publication.go): existence
check, binding, date validation, then one transaction updating the scalar
columns, running the keyword stage and the author stage, and committing;
every failure rolls the transaction back. -/
def updatePublication (f : Faults) (userID : Option Nat) (pid : Nat)
    (input : PublicationInput) (db : DB) : DB × Response :=
  match userID with
  | none => (db, ⟨401, "Unauthorized"⟩)
  | some _ =>
    match findPubByID db pid with
    | none => (db, ⟨404, "Publication not found"⟩)
    | some pub =>
      if input.title = "" then (db, titleBindError)
      else
        match parseDateOpt input.publicationDate with
        | none => (db, ⟨400, "Invalid publication date format. Use YYYY-MM-DD"⟩)
        | some dOpt =>
          if f.beginFail then (db, ⟨500, "Failed to start transaction"⟩)
          else if f.updatePubFail || doiConflict db pid input.doi then
            (db, ⟨500, "Failed to update publication"⟩)
          else
            let tx : DB :=
              { db with pubs := db.pubs.map (fun p =>
                  if p.id == pid then updateScalars pub input dOpt else p) }
            match updateKeywordsStage f pid input.keywords tx with
            | .error r => (db, r)
            | .ok tx1 =>
              match updateAuthorsStage f pid input.authors tx1 with
              | .error r => (db, r)
              | .ok tx2 =>
                if f.commitFail then (db, ⟨500, "Failed to commit transaction"⟩)
                else (tx2, ⟨200, "Publication updated successfully"⟩)

/-- DeletePublication handler (src/api/handlers/publication.go): existence
check, then one transaction deleting the author join rows, the keyword join
rows and the publication row, and committing; every failure rolls the
transaction back. -/
def deletePublication (f : Faults) (userID : Option Nat) (pid : Nat) (db : DB) :
    DB × Response :=
  match userID with
  | none => (db, ⟨401, "Unauthorized"⟩)
  | some _ =>
    match findPubByID db pid with
    | none => (db, ⟨404, "Publication not found"⟩)
    | some _ =>
      if f.beginFail then (db, ⟨500, "Failed to start transaction"⟩)
      else if f.clearAuthorsFail then (db, ⟨500, "Failed to delete author associations"⟩)
      else if f.clearKwFail then (db, ⟨500, "Failed to clear keyword associations"⟩)
      else if f.deletePubFail then (db, ⟨500, "Failed to delete publication"⟩)
      else if f.commitFail then (db, ⟨500, "Failed to commit transaction"⟩)
      else
        ({ db with
            pubs := db.pubs.filter (fun p => p.id != pid),
            pubAuthors := db.pubAuthors.filter (fun r => r.publicationID != pid),
            kwAssocs := db.kwAssocs.filter (fun e => e.1 != pid) },
         ⟨200, "Publication deleted successfully"⟩)

/-- Names of the keywords associated with a publication, as a preloaded
fetch returns them: the join rows of this publication resolved against the
keyword table. -/
def fetchKeywordNames (db : DB) (pid : Nat) : List String :=
  (db.kwAssocs.filter (fun e => e.1 == pid)).filterMap
    (fun e => (db.keywords.find? (fun k => k.id == e.2)).map (fun k => k.name))

/-- Author join rows of a publication, in row order. -/
def authorRows (db : DB) (pid : Nat) : List PublicationAuthor :=
  db.pubAuthors.filter (fun r => r.publicationID == pid)

/-- Denormalized search document (models.PublicationSearch): scalar fields
copied verbatim, author and keyword names flattened to string lists. -/
structure SearchDoc where
  id : Nat
  title : String
  abstract : String
  authors : List String
  keywords : List String
  doi : String
  journal : String
  citationCount : Nat
deriving Repr, DecidableEq

/-- Search-engine index state: documents keyed by publication id. -/
structure ES where
  docs : List (Nat × SearchDoc)
deriving Repr, DecidableEq

/-- indexPublication (src/api/handlers/publication.go): build the
denormalized search document for a publication and upsert it by id;
`esFail = true` models the search-engine call failing, in which case the
error is only logged and the index is left unchanged. -/
def indexPublication (esFail : Bool) (db : DB) (pid : Nat) (es : ES) : ES :=
  if esFail then es
  else
    match findPubByID db pid with
    | none => es
    | some pub =>
      let doc : SearchDoc :=
        { id := pid, title := pub.title, abstract := pub.abstract,
          authors := (authorRows db pid).filterMap
            (fun r => (findAuthorByID db r.authorID).map (fun a => a.name)),
          keywords := fetchKeywordNames db pid,
          doi := pub.doi, journal := pub.journal,
          citationCount := pub.citationCount }
      ⟨(pid, doc) :: es.docs.filter (fun e => e.1 != pid)⟩

/-- Elasticsearch delete-by-id fired after DeletePublication commits; a
failure is logged and dropped. -/
def esDelete (esFail : Bool) (pid : Nat) (es : ES) : ES :=
  if esFail then es else ⟨es.docs.filter (fun e => e.1 != pid)⟩

/-- CreatePublication followed by its fire-and-forget search indexing: the
response and the relational state are fixed before the indexing goroutine
runs, which is scheduled only on a committed create. -/
def createAndSync (f : Faults) (esFail : Bool) (userID : Option Nat)
    (input : PublicationInput) (db : DB) (es : ES) : DB × ES × Response :=
  let res := createPublication f userID input db
  if res.2.status == 201 then (res.1, indexPublication esFail res.1 db.nextPubID es, res.2)
  else (res.1, es, res.2)

/-- UpdatePublication followed by its fire-and-forget search indexing. -/
def updateAndSync (f : Faults) (esFail : Bool) (userID : Option Nat) (pid : Nat)
    (input : PublicationInput) (db : DB) (es : ES) : DB × ES × Response :=
  let res := updatePublication f userID pid input db
  if res.2.status == 200 then (res.1, indexPublication esFail res.1 pid es, res.2)
  else (res.1, es, res.2)

/-- DeletePublication followed by its fire-and-forget search-document
removal. -/
def deleteAndSync (f : Faults) (esFail : Bool) (userID : Option Nat) (pid : Nat)
    (db : DB) (es : ES) : DB × ES × Response :=
  let res := deletePublication f userID pid db
  if res.2.status == 200 then (res.1, esDelete esFail pid es, res.2)
  else (res.1, es, res.2)

/-- Well-formedness the storage engine's constraints maintain between
requests: unique keyword names and ids, auto-increment counters above every
used id, and join rows pointing at existing rows. -/
structure DB.WF (db : DB) : Prop where
  kwNamesNodup : (db.keywords.map Keyword.name).Nodup
  kwIdsNodup : (db.keywords.map Keyword.id).Nodup
  kwIdsLt : ∀ k ∈ db.keywords, k.id < db.nextKwID
  pubIdsLt : ∀ p ∈ db.pubs, p.id < db.nextPubID
  kwAssocPubLt : ∀ e ∈ db.kwAssocs, e.1 < db.nextPubID
  kwAssocValid : ∀ e ∈ db.kwAssocs, ∃ k ∈ db.keywords, k.id = e.2
  pubAuthorPubLt : ∀ r ∈ db.pubAuthors, r.publicationID < db.nextPubID

/-- Invariant on the transaction state threaded through the keyword loop
for a fixed publication id. -/
structure KwInv (tx : DB) (pid : Nat) : Prop where
  namesNodup : (tx.keywords.map Keyword.name).Nodup
  idsNodup : (tx.keywords.map Keyword.id).Nodup
  idsLt : ∀ k ∈ tx.keywords, k.id < tx.nextKwID
  assocValid : ∀ e ∈ tx.kwAssocs, e.1 = pid → ∃ k ∈ tx.keywords, k.id = e.2
  fetchedNodup : (fetchKeywordNames tx pid).Nodup

/-- Sample database for witnesses: one author (id 1), nothing else. -/
def sampleDB : DB := ⟨[], [], [⟨1, "Alice"⟩], [], [], 1, 1⟩

/-- Sample valid create input used by witnesses. -/
def sampleInput : PublicationInput :=
  ⟨"X", "", "", "2024-01-15", "", "", "", "", "", "", ["ml", "nlp", "ml"], [1]⟩

/-- Sample create input referencing the missing author id 2. -/
def sampleInputMissing : PublicationInput :=
  ⟨"X", "", "", "2024-01-15", "", "", "", "", "", "", [], [1, 2]⟩

/-- Sample database with one publication (id 1) and one author (id 1), for
update witnesses. -/
def sampleDB2 : DB :=
  ⟨[⟨1, "T", "", "", none, "", "", "", "", "", "", 0⟩], [], [⟨1, "Alice"⟩], [], [], 2, 1⟩

/-- Sample update input with empty keyword and author lists and no date. -/
def sampleInputEmpty : PublicationInput :=
  ⟨"X", "", "", "", "", "", "", "", "", "", [], []⟩

/-- Sample reset token issued to user 1 at instant 0. -/
def sampleResetToken : TokenStr := issueResetToken 1 0

/-- Store state right after issuing the sample reset token. -/
def sampleResetKV : KV := resetRequestStore KV.empty sampleResetToken 0

/-- Sample user table for the reset witnesses. -/
def sampleUsers : List User := [⟨1, "old"⟩]

/-- Helper: a key filtered out of an entry list never satisfies a
key-matching search over the remainder. -/
theorem any_filter_ne_false (l : List (KKey × Nat)) (k : KKey) (q : KKey × Nat → Bool) :
    (l.filter (fun e => e.1 != k)).any (fun e => e.1 == k && q e) = false := by
  induction l with
  | nil => rfl
  | cons e l ih =>
    by_cases h : e.1 = k
    · simp [List.filter_cons, h, ih]
    · simp [List.filter_cons, h, ih]

/-- Helper: after SET, the key is visible exactly until its new expiry. -/
theorem KV.existsAt_set_self (kv : KV) (k : KKey) (now ttl t : Nat) :
    (kv.set k now ttl).existsAt k t = decide (t < now + ttl) := by
  simp [KV.set, KV.existsAt, any_filter_ne_false]
  intro x x1 _ hne heq
  exact absurd heq hne

/-- Helper: SET of the same key at the same instant is idempotent. -/
theorem KV.set_set_self (kv : KV) (k : KKey) (now ttl : Nat) :
    (kv.set k now ttl).set k now ttl = kv.set k now ttl := by
  simp [KV.set, List.filter_cons, List.filter_filter]

/-- Helper: after DEL, GET of the key returns nothing at any instant. -/
theorem KV.getAt_del_self (kv : KV) (k : KKey) (t : Nat) :
    (kv.del k).getAt k t = none := by
  simp only [KV.del, KV.getAt]
  rw [List.find?_eq_none.mpr]
  · rfl
  · intro e he
    have := List.of_mem_filter he
    simp at this ⊢
    exact fun h => absurd h this

/-- C7 counterexample: a session token issued at instant 0 (expiry 604800)
and revoked at instant 432000 has remaining lifetime 172800 seconds, but
Logout writes the blacklist entry with absolute expiry 1036800, i.e. the
fixed TTL 604800, not the remaining lifetime. -/
theorem logout_ttl_not_remaining_lifetime :
    (logout true KV.empty (.signed ⟨1, 604800, none⟩) 432000).1.entries
      = [(.blacklist (.signed ⟨1, 604800, none⟩), 1036800)]
    ∧ (1036800 : Nat) ≠ 432000 + (604800 - 432000) :=
  ⟨rfl, by decide⟩

/-- C7 (amended): Logout writes a revocation entry keyed by the token value
that stays visible exactly for a fixed TTL of seven days from the moment of
revocation, regardless of the token's remaining lifetime, and repeating
Logout for the same token at the same instant is idempotent. -/
theorem logout_fixed_ttl_idempotent (kv : KV) (c : Claims) (now u : Nat) :
    ((logout true kv (.signed c) now).1.existsAt (.blacklist (.signed c)) u
        = decide (u < now + weekSeconds))
    ∧ logout true ((logout true kv (.signed c) now).1) (.signed c) now
        = logout true kv (.signed c) now := by
  constructor
  · simp [logout, KV.existsAt_set_self]
  · simp [logout, KV.set_set_self]

/-- C9 counterexample: two requests rejected for different token-state
reasons (revoked versus malformed) receive different messages, so the
user-visible message is not uniform and leaks the token state. -/
theorem authorize_message_leaks_reason :
    requireAuth true ((logout true KV.empty (.signed ⟨1, 604800, none⟩) 0).1) 10
        (.bearer (.signed ⟨1, 604800, none⟩))
      = .error ⟨401, "Token has been invalidated"⟩
    ∧ requireAuth true KV.empty 10 (.bearer (.garbage "x"))
      = .error ⟨401, "Invalid or expired token"⟩
    ∧ ("Token has been invalidated" ≠ "Invalid or expired token") :=
  ⟨rfl, rfl, by decide⟩

/-- C9 (amended): when the Redis lookup itself succeeds, every RequireAuth
rejection carries the same HTTP status 401 regardless of the underlying
token-state reason, but the response message differs by reason. -/
theorem authorize_reject_status_uniform (kv : KV) (now : Nat) (h : AuthHeader)
    (r : Response) (he : requireAuth true kv now h = .error r) : r.status = 401 := by
  cases h with
  | missing =>
    simp only [requireAuth] at he
    cases he
    rfl
  | malformed s =>
    simp only [requireAuth] at he
    cases he
    rfl
  | bearer t =>
    simp only [requireAuth, Bool.not_true, Bool.false_eq_true, if_false] at he
    split at he
    · cases he
      rfl
    · split at he
      · cases he
        rfl
      · split at he
        · cases he
          rfl
        · cases he

/-- Witness for the amended C9 theorem at a concrete rejected request. -/
theorem authorize_reject_status_uniform_wit :
    (⟨401, "Authorization header is required"⟩ : Response).status = 401 :=
  authorize_reject_status_uniform KV.empty 0 AuthHeader.missing _ rfl

/-- C2: once Logout has blacklisted a session token, every later
RequireAuth presenting that exact token is rejected with status 401: while
the blacklist entry is live the token is revoked, and once the entry lapses
the token itself has expired (its expiry is at most revocation time plus
one week), so the token never becomes valid again. -/
theorem revoked_token_never_authorizes (kv : KV) (c : Claims) (tr t : Nat)
    (hle : tr ≤ t) (hexp : c.exp ≤ tr + weekSeconds) :
    ∃ msg, requireAuth true ((logout true kv (.signed c) tr).1) t
        (.bearer (.signed c)) = .error ⟨401, msg⟩ := by
  by_cases hb : t < tr + weekSeconds
  · exact ⟨"Token has been invalidated", by
      simp [requireAuth, logout, KV.existsAt_set_self, hb]⟩
  · have hpe : ¬ (t < c.exp) := by omega
    exact ⟨"Invalid or expired token", by
      simp [requireAuth, logout, KV.existsAt_set_self, hb, jwtParse, hpe]⟩

/-- Witness for the C2 theorem: a token with a one-week expiry revoked at
instant 100 is rejected at instant 200. -/
theorem revoked_token_never_authorizes_wit :
    ∃ msg, requireAuth true ((logout true KV.empty (.signed ⟨1, 604800, none⟩) 100).1) 200
        (.bearer (.signed ⟨1, 604800, none⟩)) = .error ⟨401, msg⟩ :=
  revoked_token_never_authorizes KV.empty ⟨1, 604800, none⟩ 100 200 (by decide) (by decide)

/-- C8: the HTTP response and the relational state of a publication create,
update or delete are identical whether the scheduled search-index
synchronization fails or succeeds: only the search index itself can
differ. -/
theorem sync_failure_invisible (f : Faults) (u : Option Nat) (input : PublicationInput)
    (pid : Nat) (db : DB) (es : ES) (e1 e2 : Bool) :
    ((createAndSync f e1 u input db es).1 = (createAndSync f e2 u input db es).1
      ∧ (createAndSync f e1 u input db es).2.2 = (createAndSync f e2 u input db es).2.2)
    ∧ ((updateAndSync f e1 u pid input db es).1 = (updateAndSync f e2 u pid input db es).1
      ∧ (updateAndSync f e1 u pid input db es).2.2
          = (updateAndSync f e2 u pid input db es).2.2)
    ∧ ((deleteAndSync f e1 u pid db es).1 = (deleteAndSync f e2 u pid db es).1
      ∧ (deleteAndSync f e1 u pid db es).2.2 = (deleteAndSync f e2 u pid db es).2.2) := by
  refine ⟨⟨?_, ?_⟩, ⟨?_, ?_⟩, ⟨?_, ?_⟩⟩ <;>
    simp only [createAndSync, updateAndSync, deleteAndSync] <;> split <;> rfl

/-- Helper: a successful `jwt.Parse` means the token was signed with the
server secret and is unexpired. -/
theorem jwtParse_some {t : TokenStr} {now : Nat} {c : Claims}
    (h : jwtParse t now = some c) : t = .signed c ∧ now < c.exp := by
  cases t with
  | signed c2 =>
    by_cases he : now < c2.exp
    · simp [jwtParse, he] at h
      subst h
      exact ⟨rfl, he⟩
    · simp [jwtParse, he] at h
  | garbage s => simp [jwtParse] at h

/-- Helper: a 200 outcome of ResetPassword pins down every check the
handler ran and the exact final state: the presence entry is deleted and
the subject's credential is rewritten. -/
theorem resetPassword_success (kv : KV) (users : List User) (t : TokenStr)
    (pw : String) (now : Nat)
    (hs : (resetPassword kv users t pw now).2.2.status = 200) :
    ∃ c, t = .signed c ∧ now < c.exp ∧ c.typ = some "password_reset"
      ∧ (kv.getAt (.passwordReset t) now).isSome = true
      ∧ resetPassword kv users t pw now
          = (kv.del (.passwordReset t),
             users.map (fun u => if u.id == c.sub then
               { u with password := hashPassword pw } else u),
             ⟨200, "Password has been reset successfully"⟩) := by
  by_cases hpw : pw.length < 8
  · simp [resetPassword, hpw] at hs
  · cases ht : jwtParse t now with
    | none => simp [resetPassword, hpw, ht] at hs
    | some c =>
      by_cases htyp : c.typ = some "password_reset"
      · by_cases hget : (kv.getAt (.passwordReset t) now).isSome = true
        · cases hu : users.find? (fun u => u.id == c.sub) with
          | none => simp [resetPassword, hpw, ht, htyp, hget, hu] at hs
          | some u0 =>
            obtain ⟨hts, hexp⟩ := jwtParse_some ht
            exact ⟨c, hts, hexp, htyp, hget, by
              simp [resetPassword, hpw, ht, htyp, hget, hu]⟩
        · simp [resetPassword, hpw, ht, htyp, hget] at hs
      · simp [resetPassword, hpw, ht, htyp] at hs

/-- C3: ResetPassword redeems a reset token only when it is correctly
signed and unexpired, its purpose tag equals password_reset, and the
presence entry is live in the store, and then it deletes the presence
entry; a second redemption attempt with the same token therefore fails
with the InvalidOrExpired response and changes nothing; and a token whose
purpose tag is not password_reset (e.g. a session token) is rejected even
when otherwise valid. -/
theorem reset_token_single_use :
    (∀ (kv : KV) (users : List User) (t : TokenStr) (pw : String) (now : Nat),
      (resetPassword kv users t pw now).2.2.status = 200 →
      ∃ c, t = .signed c ∧ now < c.exp ∧ c.typ = some "password_reset"
        ∧ (kv.getAt (.passwordReset t) now).isSome = true
        ∧ (resetPassword kv users t pw now).1 = kv.del (.passwordReset t))
    ∧ (∀ (kv : KV) (users : List User) (t : TokenStr) (pw pw2 : String) (now now2 : Nat),
        (resetPassword kv users t pw now).2.2.status = 200 → 8 ≤ pw2.length →
        resetPassword (resetPassword kv users t pw now).1
            (resetPassword kv users t pw now).2.1 t pw2 now2
          = ((resetPassword kv users t pw now).1,
             (resetPassword kv users t pw now).2.1,
             ⟨400, "Invalid or expired token"⟩))
    ∧ (∀ (kv : KV) (users : List User) (c : Claims) (pw : String) (now : Nat),
        c.typ ≠ some "password_reset" → 8 ≤ pw.length → now < c.exp →
        resetPassword kv users (.signed c) pw now
          = (kv, users, ⟨400, "Invalid token type"⟩)) := by
  refine ⟨?_, ?_, ?_⟩
  · intro kv users t pw now hs
    obtain ⟨c, hts, hexp, htyp, hget, heq⟩ := resetPassword_success kv users t pw now hs
    exact ⟨c, hts, hexp, htyp, hget, by rw [heq]⟩
  · intro kv users t pw pw2 now now2 hs hpw2
    obtain ⟨c, hts, hexp, htyp, hget, heq⟩ := resetPassword_success kv users t pw now hs
    rw [heq]
    subst hts
    have hpw2' : ¬ (pw2.length < 8) := by omega
    by_cases he2 : now2 < c.exp
    · simp [resetPassword, hpw2', jwtParse, he2, htyp, KV.getAt_del_self]
    · simp [resetPassword, hpw2', jwtParse, he2]
  · intro kv users c pw now htyp hpw hexp
    have hpw' : ¬ (pw.length < 8) := by omega
    simp [resetPassword, hpw', jwtParse, hexp, htyp]

/-- Witness for the C3 theorem on the concrete issued reset token: the
redeem-then-redeem-again scenario and the rejection of a purposeless
session token. -/
theorem reset_token_single_use_wit :
    (∃ c, sampleResetToken = TokenStr.signed c ∧ (10:Nat) < c.exp
       ∧ c.typ = some "password_reset"
       ∧ (sampleResetKV.getAt (.passwordReset sampleResetToken) 10).isSome = true
       ∧ (resetPassword sampleResetKV sampleUsers sampleResetToken "newpassword" 10).1
           = sampleResetKV.del (.passwordReset sampleResetToken))
    ∧ resetPassword
        (resetPassword sampleResetKV sampleUsers sampleResetToken "newpassword" 10).1
        (resetPassword sampleResetKV sampleUsers sampleResetToken "newpassword" 10).2.1
        sampleResetToken "newpassword2" 20
        = ((resetPassword sampleResetKV sampleUsers sampleResetToken "newpassword" 10).1,
           (resetPassword sampleResetKV sampleUsers sampleResetToken "newpassword" 10).2.1,
           ⟨400, "Invalid or expired token"⟩)
    ∧ resetPassword sampleResetKV sampleUsers (.signed ⟨1, 604800, none⟩) "newpassword" 10
        = (sampleResetKV, sampleUsers, ⟨400, "Invalid token type"⟩) :=
  ⟨reset_token_single_use.1 sampleResetKV sampleUsers sampleResetToken "newpassword" 10
     (by decide),
   reset_token_single_use.2.1 sampleResetKV sampleUsers sampleResetToken
     "newpassword" "newpassword2" 10 20 (by decide) (by decide),
   reset_token_single_use.2.2 sampleResetKV sampleUsers ⟨1, 604800, none⟩
     "newpassword" 10 (by decide) (by decide) (by decide)⟩

/-- Helper: appending a keyword join row leaves the author table alone. -/
theorem appendKwAssoc_authors (tx : DB) (pid kid : Nat) :
    (appendKwAssoc tx pid kid).authors = tx.authors := by
  unfold appendKwAssoc
  split <;> rfl

/-- Helper: the keyword loop never touches the author table, whatever the
fault configuration. -/
theorem processKeywords_authors (f : Faults) (pid : Nat) (names : List String)
    (tx tx' : DB) (h : processKeywords f pid names tx = .ok tx') :
    tx'.authors = tx.authors := by
  induction names generalizing tx with
  | nil =>
    simp [processKeywords] at h
    rw [← h]
  | cons n rest ih =>
    cases hfk : findKeywordByName tx.keywords n with
    | some kw =>
      simp only [processKeywords, hfk] at h
      split at h
      · cases h
      · rw [ih _ h, appendKwAssoc_authors]
    | none =>
      simp only [processKeywords, hfk] at h
      split at h
      · cases h
      · split at h
        · cases h
        · rw [ih _ h, appendKwAssoc_authors]

/-- Helper: when some id in the author list has no author row, the author
loop fails, whatever the fault configuration, with a 400 or 500 response. -/
theorem processAuthors_missing (f : Faults) (pid : Nat) (aids : List Nat) (i : Nat)
    (tx : DB) (h : ∃ a ∈ aids, findAuthorByID tx a = none) :
    ∃ r, processAuthors f pid i aids tx = .error r ∧ r.status ≠ 201 := by
  induction aids generalizing i tx with
  | nil => simp at h
  | cons a rest ih =>
    obtain ⟨b, hb, hbn⟩ := h
    cases hfa : findAuthorByID tx a with
    | none =>
      refine ⟨⟨400, "Author not found: " ++ toString a⟩, ?_, by simp⟩
      simp [processAuthors, hfa]
    | some x =>
      rcases List.mem_cons.mp hb with rfl | hbr
      · rw [hfa] at hbn
        cases hbn
      · by_cases hif : f.insertPubAuthorFail
        · refine ⟨⟨500, "Failed to associate author"⟩, ?_, by simp⟩
          simp [processAuthors, hfa, hif]
        · have hbn' : findAuthorByID
              { tx with pubAuthors := tx.pubAuthors ++ [⟨pid, x.id, i⟩] } b = none := hbn
          obtain ⟨r, hr, hrs⟩ := ih (i + 1) _ ⟨b, hbr, hbn'⟩
          refine ⟨r, ?_, hrs⟩
          simp [processAuthors, hfa, hif, hr]

/-- Helper: CreatePublication either reports 201 or returns the database
unchanged (the rollback path), whatever the fault configuration. -/
theorem createPublication_cases (f : Faults) (u : Option Nat)
    (input : PublicationInput) (db : DB) :
    (createPublication f u input db).2.status = 201
    ∨ (createPublication f u input db).1 = db := by
  unfold createPublication
  cases u
  · exact Or.inr rfl
  · dsimp only
    repeat' split
    all_goals first | exact Or.inl rfl | exact Or.inr rfl

/-- Helper: UpdatePublication either reports 200 or returns the database
unchanged, whatever the fault configuration. -/
theorem updatePublication_cases (f : Faults) (u : Option Nat) (pid : Nat)
    (input : PublicationInput) (db : DB) :
    (updatePublication f u pid input db).2.status = 200
    ∨ (updatePublication f u pid input db).1 = db := by
  unfold updatePublication
  cases u
  · exact Or.inr rfl
  · dsimp only
    repeat' split
    all_goals first | exact Or.inl rfl | exact Or.inr rfl

/-- Helper: DeletePublication either reports 200 or returns the database
unchanged, whatever the fault configuration. -/
theorem deletePublication_cases (f : Faults) (u : Option Nat) (pid : Nat) (db : DB) :
    (deletePublication f u pid db).2.status = 200
    ∨ (deletePublication f u pid db).1 = db := by
  unfold deletePublication
  cases u
  · exact Or.inr rfl
  · dsimp only
    repeat' split
    all_goals first | exact Or.inl rfl | exact Or.inr rfl

/-- Helper: every error of the keyword loop is a 500 response. -/
theorem processKeywords_error_status (f : Faults) (pid : Nat) (names : List String)
    (tx : DB) (r : Response) (h : processKeywords f pid names tx = .error r) :
    r.status = 500 := by
  induction names generalizing tx with
  | nil => simp [processKeywords] at h
  | cons n rest ih =>
    cases hfk : findKeywordByName tx.keywords n with
    | some kw =>
      simp only [processKeywords, hfk] at h
      split at h
      · cases h
        rfl
      · exact ih _ h
    | none =>
      simp only [processKeywords, hfk] at h
      split at h
      · cases h
        rfl
      · split at h
        · cases h
          rfl
        · exact ih _ h

/-- Helper: every error of the author loop is a 400 or 500 response. -/
theorem processAuthors_error_status (f : Faults) (pid i : Nat) (aids : List Nat)
    (tx : DB) (r : Response) (h : processAuthors f pid i aids tx = .error r) :
    r.status ≠ 201 := by
  induction aids generalizing i tx with
  | nil => simp [processAuthors] at h
  | cons a rest ih =>
    cases hfa : findAuthorByID tx a with
    | none =>
      simp only [processAuthors, hfa] at h
      cases h
      simp
    | some x =>
      simp only [processAuthors, hfa] at h
      split at h
      · cases h
        simp
      · exact ih _ _ h

/-- Helper: with some referenced author missing, CreatePublication cannot
report 201, whatever the fault configuration. -/
theorem createPublication_missing_author (f : Faults) (u : Option Nat)
    (input : PublicationInput) (db : DB)
    (h : ∃ a ∈ input.authors, findAuthorByID db a = none) :
    (createPublication f u input db).2.status ≠ 201 := by
  unfold createPublication
  cases u
  · simp
  · dsimp only
    split
    · simp [titleBindError]
    · split
      · simp
      · split
        · simp
        · split
          · simp
          · split
            · next r heq =>
              have h5 := processKeywords_error_status _ _ _ _ _ heq
              simp [h5]
            · next tx1 heq1 =>
              split
              · next r heq2 =>
                have h45 := processAuthors_error_status _ _ _ _ _ _ heq2
                simpa using h45
              · next tx2 heq2 =>
                obtain ⟨a, ha, hN⟩ := h
                have hAuth : tx1.authors = db.authors := by
                  simpa using processKeywords_authors _ _ _ _ _ heq1
                have hN1 : findAuthorByID tx1 a = none := by
                  unfold findAuthorByID at hN ⊢
                  rw [hAuth]
                  exact hN
                obtain ⟨r, hr, _⟩ :=
                  processAuthors_missing f db.nextPubID input.authors 0 tx1 ⟨a, ha, hN1⟩
                rw [heq2] at hr
                cases hr

/-- C1: every publication create, update or delete that does not report
success leaves the relational state exactly as it was (the whole
transaction is rolled back, no partial state survives), for every fault
configuration; in particular a create whose author list references a
missing author id fails and leaves the database unchanged, so zero new
publication rows and zero new association rows exist afterwards. -/
theorem write_transaction_atomic :
    (∀ (f : Faults) (u : Option Nat) (input : PublicationInput) (db : DB),
        (createPublication f u input db).2.status ≠ 201 →
        (createPublication f u input db).1 = db)
    ∧ (∀ (f : Faults) (u : Option Nat) (pid : Nat) (input : PublicationInput) (db : DB),
        (updatePublication f u pid input db).2.status ≠ 200 →
        (updatePublication f u pid input db).1 = db)
    ∧ (∀ (f : Faults) (u : Option Nat) (pid : Nat) (db : DB),
        (deletePublication f u pid db).2.status ≠ 200 →
        (deletePublication f u pid db).1 = db)
    ∧ (∀ (f : Faults) (u : Option Nat) (input : PublicationInput) (db : DB),
        (∃ a ∈ input.authors, findAuthorByID db a = none) →
        (createPublication f u input db).1 = db
        ∧ (createPublication f u input db).2.status ≠ 201) := by
  refine ⟨?_, ?_, ?_, ?_⟩
  · intro f u input db hne
    rcases createPublication_cases f u input db with hs | hdb
    · exact absurd hs hne
    · exact hdb
  · intro f u pid input db hne
    rcases updatePublication_cases f u pid input db with hs | hdb
    · exact absurd hs hne
    · exact hdb
  · intro f u pid db hne
    rcases deletePublication_cases f u pid db with hs | hdb
    · exact absurd hs hne
    · exact hdb
  · intro f u input db hmiss
    have hne := createPublication_missing_author f u input db hmiss
    rcases createPublication_cases f u input db with hs | hdb
    · exact absurd hs hne
    · exact ⟨hdb, hne⟩

/-- Witness for the C1 theorem: rejected writes on the sample database, and
the concrete create with authors [1, 2] where author 2 does not exist. -/
theorem write_transaction_atomic_wit :
    (createPublication noFaults Option.none sampleInput sampleDB).1 = sampleDB
    ∧ (updatePublication noFaults Option.none 1 sampleInput sampleDB).1 = sampleDB
    ∧ (deletePublication noFaults Option.none 1 sampleDB).1 = sampleDB
    ∧ ((createPublication noFaults (some 7) sampleInputMissing sampleDB).1 = sampleDB
       ∧ (createPublication noFaults (some 7) sampleInputMissing sampleDB).2.status ≠ 201) :=
  ⟨write_transaction_atomic.1 noFaults Option.none sampleInput sampleDB (by decide),
   write_transaction_atomic.2.1 noFaults Option.none 1 sampleInput sampleDB (by decide),
   write_transaction_atomic.2.2.1 noFaults Option.none 1 sampleDB (by decide),
   write_transaction_atomic.2.2.2 noFaults (some 7) sampleInputMissing sampleDB
     ⟨2, by decide, by decide⟩⟩

/-- Helper: lookups by author id only read the author table. -/
theorem findAuthorByID_ext {tx db : DB} (h : tx.authors = db.authors) (a : Nat) :
    findAuthorByID tx a = findAuthorByID db a := by
  unfold findAuthorByID
  rw [h]

/-- Helper: with no injected faults the keyword loop always succeeds, and it
never touches the author table. -/
theorem processKeywords_noFaults_ok (pid : Nat) (names : List String) (tx : DB) :
    ∃ tx', processKeywords noFaults pid names tx = .ok tx' ∧ tx'.authors = tx.authors := by
  induction names generalizing tx with
  | nil => exact ⟨tx, rfl, rfl⟩
  | cons n rest ih =>
    cases hfk : findKeywordByName tx.keywords n with
    | some kw =>
      obtain ⟨tx', h1, h2⟩ := ih (appendKwAssoc tx pid kw.id)
      refine ⟨tx', ?_, ?_⟩
      · simp only [processKeywords, hfk, noFaults]
        exact h1
      · rw [h2, appendKwAssoc_authors]
    | none =>
      obtain ⟨tx', h1, h2⟩ := ih (appendKwAssoc
        { tx with keywords := tx.keywords ++ [⟨tx.nextKwID, n⟩], nextKwID := tx.nextKwID + 1 } pid tx.nextKwID)
      refine ⟨tx', ?_, ?_⟩
      · simp only [processKeywords, hfk, noFaults]
        exact h1
      · rw [h2, appendKwAssoc_authors]

/-- Helper: with no injected faults the keyword stage of an update always
succeeds without touching the author table. -/
theorem updateKeywordsStage_noFaults_ok (pid : Nat) (names : List String) (tx : DB) :
    ∃ tx', updateKeywordsStage noFaults pid names tx = .ok tx'
      ∧ tx'.authors = tx.authors := by
  unfold updateKeywordsStage
  by_cases hne : names.isEmpty
  · rw [if_pos hne]
    exact ⟨tx, rfl, rfl⟩
  · rw [if_neg hne]
    obtain ⟨tx', h1, h2⟩ := processKeywords_noFaults_ok pid names
      { tx with kwAssocs := tx.kwAssocs.filter (fun e => e.1 != pid) }
    exact ⟨tx', h1, h2⟩

/-- Helper: the author loop fails at the first missing author id with the
handler's 400 not-found message, after inserting rows for the found ones. -/
theorem processAuthors_first_missing (pid : Nat) (as1 as2 : List Nat) (aid : Nat)
    (i : Nat) (tx : DB)
    (hpre : ∀ a ∈ as1, (findAuthorByID tx a).isSome)
    (hmiss : findAuthorByID tx aid = none) :
    processAuthors noFaults pid i (as1 ++ aid :: as2) tx
      = .error ⟨400, "Author not found: " ++ toString aid⟩ := by
  induction as1 generalizing i tx with
  | nil =>
    simp only [List.nil_append, processAuthors, hmiss]
  | cons a rest ih =>
    have hsome := hpre a (List.mem_cons_self a rest)
    cases hfa : findAuthorByID tx a with
    | none =>
      rw [hfa] at hsome
      cases hsome
    | some x =>
      simp only [List.cons_append, processAuthors, hfa, noFaults]
      refine ih (i + 1) _ ?_ ?_
      · intro b hb
        have h1 : findAuthorByID { tx with pubAuthors := tx.pubAuthors ++ [⟨pid, x.id, i⟩] } b
            = findAuthorByID tx b := findAuthorByID_ext rfl b
        rw [h1]
        exact hpre b (List.mem_cons_of_mem a hb)
      · have h1 : findAuthorByID { tx with pubAuthors := tx.pubAuthors ++ [⟨pid, x.id, i⟩] } aid
            = findAuthorByID tx aid := findAuthorByID_ext rfl aid
        rw [h1]
        exact hmiss

/-- Helper: with no injected faults the keyword loop never errors. -/
theorem processKeywords_noFaults_ne_error (pid : Nat) (names : List String) (tx : DB)
    (r : Response) (h : processKeywords noFaults pid names tx = .error r) : False := by
  obtain ⟨tx2, hk, _⟩ := processKeywords_noFaults_ok pid names tx
  rw [hk] at h
  cases h

/-- Helper: with no injected faults the update keyword stage never errors. -/
theorem updateKeywordsStage_noFaults_ne_error (pid : Nat) (names : List String)
    (tx : DB) (r : Response) (h : updateKeywordsStage noFaults pid names tx = .error r) :
    False := by
  obtain ⟨tx2, hk, _⟩ := updateKeywordsStage_noFaults_ok pid names tx
  rw [hk] at h
  cases h

/-- Helper: the update keyword stage never touches the author table. -/
theorem updateKeywordsStage_authors (f : Faults) (pid : Nat) (names : List String)
    (tx tx2 : DB) (h : updateKeywordsStage f pid names tx = .ok tx2) :
    tx2.authors = tx.authors := by
  unfold updateKeywordsStage at h
  split at h
  · cases h
    rfl
  · split at h
    · cases h
    · simpa using processKeywords_authors _ _ _ _ _ h

/-- C6: a create or update that references a missing author id fails with
the not-found response (400, "Author not found: <id>"), and that response
is distinct from the validation responses (bad date, missing title), the
conflict responses (duplicate DOI on insert or update), and the storage
responses (failed begin or commit), so a caller can tell them apart. -/
theorem author_not_found_distinct_error :
    (∀ (u : Nat) (input : PublicationInput) (db : DB) (as1 as2 : List Nat) (aid : Nat),
      input.title ≠ "" → (parseDate input.publicationDate).isSome →
      doiConflict db db.nextPubID input.doi = false →
      input.authors = as1 ++ aid :: as2 →
      (∀ a ∈ as1, (findAuthorByID db a).isSome) →
      findAuthorByID db aid = none →
      createPublication noFaults (some u) input db
        = (db, ⟨400, "Author not found: " ++ toString aid⟩))
    ∧ (∀ (u : Nat) (pid : Nat) (input : PublicationInput) (db : DB)
        (as1 as2 : List Nat) (aid : Nat),
      (findPubByID db pid).isSome → input.title ≠ "" →
      (parseDateOpt input.publicationDate).isSome →
      doiConflict db pid input.doi = false →
      input.authors = as1 ++ aid :: as2 →
      (∀ a ∈ as1, (findAuthorByID db a).isSome) →
      findAuthorByID db aid = none →
      updatePublication noFaults (some u) pid input db
        = (db, ⟨400, "Author not found: " ++ toString aid⟩))
    ∧ (∀ s : String,
      (⟨400, "Author not found: " ++ s⟩ : Response)
          ≠ ⟨400, "Invalid publication date format. Use YYYY-MM-DD"⟩
      ∧ (⟨400, "Author not found: " ++ s⟩ : Response) ≠ titleBindError
      ∧ (⟨400, "Author not found: " ++ s⟩ : Response)
          ≠ ⟨500, "Failed to create publication"⟩
      ∧ (⟨400, "Author not found: " ++ s⟩ : Response)
          ≠ ⟨500, "Failed to update publication"⟩
      ∧ (⟨400, "Author not found: " ++ s⟩ : Response)
          ≠ ⟨500, "Failed to start transaction"⟩
      ∧ (⟨400, "Author not found: " ++ s⟩ : Response)
          ≠ ⟨500, "Failed to commit transaction"⟩) := by
  refine ⟨?_, ?_, ?_⟩
  · intro u input db as1 as2 aid hts hdate hdoi hsplit hpre hmiss
    obtain ⟨d, hd⟩ := Option.isSome_iff_exists.mp hdate
    unfold createPublication
    dsimp only
    rw [if_neg hts]
    simp only [hd]
    rw [if_neg (show ¬ (noFaults.beginFail = true) by decide)]
    rw [if_neg (show ¬ ((noFaults.insertPubFail
      || doiConflict db db.nextPubID input.doi) = true) by simp [noFaults, hdoi])]
    split
    · next r heq => exact ((processKeywords_noFaults_ne_error _ _ _ _ heq).elim)
    · next tx1 heq =>
      have ha : tx1.authors = db.authors := by
        simpa using processKeywords_authors _ _ _ _ _ heq
      rw [hsplit]
      rw [processAuthors_first_missing db.nextPubID as1 as2 aid 0 tx1
        (fun a hain => by rw [findAuthorByID_ext ha a]; exact hpre a hain)
        (by rw [findAuthorByID_ext ha aid]; exact hmiss)]
  · intro u pid input db as1 as2 aid hex hts hdate hdoi hsplit hpre hmiss
    obtain ⟨pub, hpub⟩ := Option.isSome_iff_exists.mp hex
    obtain ⟨dOpt, hd⟩ := Option.isSome_iff_exists.mp hdate
    unfold updatePublication
    dsimp only
    simp only [hpub]
    rw [if_neg hts]
    simp only [hd]
    rw [if_neg (show ¬ (noFaults.beginFail = true) by decide)]
    rw [if_neg (show ¬ ((noFaults.updatePubFail
      || doiConflict db pid input.doi) = true) by simp [noFaults, hdoi])]
    split
    · next r heq => exact ((updateKeywordsStage_noFaults_ne_error _ _ _ _ heq).elim)
    · next tx1 heq =>
      have ha : tx1.authors = db.authors := by
        simpa using updateKeywordsStage_authors _ _ _ _ _ heq
      unfold updateAuthorsStage
      rw [hsplit]
      rw [if_neg (show ¬ ((as1 ++ aid :: as2).isEmpty = true) by simp)]
      rw [if_neg (show ¬ (noFaults.clearAuthorsFail = true) by decide)]
      have ha2 : ({ tx1 with pubAuthors := tx1.pubAuthors.filter (fun r => r.publicationID != pid) } : DB).authors = db.authors := ha
      rw [processAuthors_first_missing pid as1 as2 aid 0 _
        (fun a hain => by rw [findAuthorByID_ext ha2 a]; exact hpre a hain)
        (by rw [findAuthorByID_ext ha2 aid]; exact hmiss)]
  · intro s
    have hne1 : ("Author not found: " ++ s)
        ≠ "Invalid publication date format. Use YYYY-MM-DD" := by
      intro h
      have hd := congrArg String.data h
      rw [String.data_append] at hd
      have h0 : "Author not found: ".data = 'A' :: "uthor not found: ".data := rfl
      rw [h0] at hd
      simp at hd
    have hne2 : ("Author not found: " ++ s) ≠ titleBindError.message := by
      intro h
      have hd := congrArg String.data h
      rw [String.data_append] at hd
      have h0 : "Author not found: ".data = 'A' :: "uthor not found: ".data := rfl
      rw [h0] at hd
      simp [titleBindError] at hd
    refine ⟨?_, ?_, ?_, ?_, ?_, ?_⟩
    · intro h
      exact hne1 (congrArg Response.message h)
    · intro h
      exact hne2 (congrArg Response.message h)
    all_goals intro h
    all_goals exact absurd (congrArg Response.status h) (by simp)

/-- Witness for the C6 theorem: the create on the sample database with
authors [1, 2] (author 2 missing), the same update on a database holding
publication 1, and the message distinction at id 2. -/
theorem author_not_found_distinct_error_wit :
    createPublication noFaults (some 7) sampleInputMissing sampleDB
      = (sampleDB, ⟨400, "Author not found: " ++ toString 2⟩)
    ∧ updatePublication noFaults (some 7) 1 sampleInputMissing sampleDB2
      = (sampleDB2, ⟨400, "Author not found: " ++ toString 2⟩)
    ∧ (⟨400, "Author not found: " ++ "2"⟩ : Response)
        ≠ ⟨400, "Invalid publication date format. Use YYYY-MM-DD"⟩ :=
  ⟨author_not_found_distinct_error.1 7 sampleInputMissing sampleDB [1] [] 2
     (by decide) (by decide) (by decide) (by decide) (by decide) (by decide),
   author_not_found_distinct_error.2.1 7 1 sampleInputMissing sampleDB2 [1] [] 2
     (by decide) (by decide) (by decide) (by decide) (by decide) (by decide) (by decide),
   (author_not_found_distinct_error.2.2 "2").1⟩

/-- Helper: lookup by keyword id finds exactly a given member when ids are
unique. -/
theorem find?_id_of_mem (l : List Keyword) (k : Keyword) (hmem : k ∈ l)
    (hnod : (l.map Keyword.id).Nodup) : l.find? (fun x => x.id == k.id) = some k := by
  cases hf : l.find? (fun x => x.id == k.id) with
  | none =>
    have hs : (l.find? (fun x => x.id == k.id)).isSome := by
      exact List.find?_isSome.mpr ⟨k, hmem, by simp⟩
    rw [hf] at hs
    cases hs
  | some k2 =>
    have hm2 := List.mem_of_find?_eq_some hf
    have hp2 := List.find?_some hf
    have hid : k2.id = k.id := by simpa using hp2
    have : k2 = k := List.inj_on_of_nodup_map hnod hm2 hmem hid
    rw [this]

/-- Helper: every fetched keyword name belongs to some keyword row. -/
theorem mem_fetch_imp_name (tx : DB) (pid : Nat) (n : String)
    (h : n ∈ fetchKeywordNames tx pid) : ∃ k ∈ tx.keywords, k.name = n := by
  unfold fetchKeywordNames at h
  obtain ⟨e, he, hmap⟩ := List.mem_filterMap.mp h
  cases hf : tx.keywords.find? (fun k => k.id == e.2) with
  | none =>
    rw [hf] at hmap
    cases hmap
  | some k =>
    rw [hf] at hmap
    simp at hmap
    exact ⟨k, List.mem_of_find?_eq_some hf, hmap⟩

/-- Helper: a live keyword join row of this publication contributes its
keyword's name to the fetched list. -/
theorem name_mem_fetch (tx : DB) (pid kid : Nat) (k : Keyword)
    (hassoc : (pid, kid) ∈ tx.kwAssocs)
    (hf : tx.keywords.find? (fun x => x.id == kid) = some k) :
    k.name ∈ fetchKeywordNames tx pid := by
  unfold fetchKeywordNames
  refine List.mem_filterMap.mpr ⟨(pid, kid), ?_, ?_⟩
  · exact List.mem_filter.mpr ⟨hassoc, by simp⟩
  · rw [hf]
    rfl

/-- Helper: appending one join row appends exactly the resolved name to the
fetched list. -/
theorem fetch_append_assoc (tx : DB) (pid kid : Nat) (k : Keyword)
    (hf : tx.keywords.find? (fun x => x.id == kid) = some k) :
    fetchKeywordNames { tx with kwAssocs := tx.kwAssocs ++ [(pid, kid)] } pid
      = fetchKeywordNames tx pid ++ [k.name] := by
  unfold fetchKeywordNames
  dsimp only
  rw [List.filter_append, List.filterMap_append]
  simp [hf]

/-- Helper: growing the keyword table does not change the fetched names as
long as every join row of this publication already resolves. -/
theorem fetch_keywords_extend (tx : DB) (pid : Nat) (kw : Keyword)
    (hvalid : ∀ e ∈ tx.kwAssocs, e.1 = pid → ∃ k ∈ tx.keywords, k.id = e.2) :
    fetchKeywordNames
        { tx with keywords := tx.keywords ++ [kw], nextKwID := tx.nextKwID + 1 } pid
      = fetchKeywordNames tx pid := by
  unfold fetchKeywordNames
  dsimp only
  refine List.filterMap_congr ?_
  intro e he
  have hm := List.mem_filter.mp he
  obtain ⟨k1, hk1, hid⟩ := hvalid e hm.1 (by simpa using hm.2)
  have hs : (tx.keywords.find? (fun x => x.id == e.2)).isSome :=
    List.find?_isSome.mpr ⟨k1, hk1, by simp [hid]⟩
  obtain ⟨k2, hk2⟩ := Option.isSome_iff_exists.mp hs
  rw [List.find?_append, hk2]
  rfl

/-- Helper: a publication all of whose join rows are absent fetches no
keyword names. -/
theorem fetch_empty_of_lt (db : DB) (pid : Nat)
    (h : ∀ e ∈ db.kwAssocs, e.1 < pid) : fetchKeywordNames db pid = [] := by
  unfold fetchKeywordNames
  rw [List.filter_eq_nil.mpr]
  · rfl
  · intro e he
    have := h e he
    simp
    omega

/-- Helper: clearing the join rows of a publication empties its fetch. -/
theorem fetch_cleared (tx : DB) (pid : Nat) :
    fetchKeywordNames
        { tx with kwAssocs := tx.kwAssocs.filter (fun e => e.1 != pid) } pid = [] := by
  unfold fetchKeywordNames
  dsimp only
  rw [List.filter_filter]
  rw [List.filter_eq_nil.mpr]
  · rfl
  · intro e he
    simp

/-- Helper: the author rows of a publication are unaffected by rows of other
publications and keep exactly its own. -/
theorem authorRows_append_fresh (old new : List PublicationAuthor) (pid : Nat)
    (hold : ∀ r ∈ old, r.publicationID ≠ pid)
    (hnew : ∀ r ∈ new, r.publicationID = pid) :
    (old ++ new).filter (fun r => r.publicationID == pid) = new := by
  rw [List.filter_append]
  rw [List.filter_eq_nil.mpr fun r hr => by simp [hold r hr]]
  rw [List.nil_append]
  exact List.filter_eq_self.mpr fun r hr => by simp [hnew r hr]

/-- Main specification of the keyword loop: with no injected faults and the
loop invariant, it succeeds, keeps the invariant, leaves everything but the
keyword table, the join rows and the id counter alone, and afterwards a name
is fetched for this publication exactly when it was fetched before or occurs
in the processed list. -/
theorem processKeywords_spec (pid : Nat) (names : List String) (tx : DB)
    (h : KwInv tx pid) :
    ∃ tx', processKeywords noFaults pid names tx = .ok tx'
      ∧ tx'.pubs = tx.pubs ∧ tx'.authors = tx.authors
      ∧ tx'.pubAuthors = tx.pubAuthors ∧ tx'.nextPubID = tx.nextPubID
      ∧ KwInv tx' pid
      ∧ (∀ m, m ∈ fetchKeywordNames tx' pid
          ↔ (m ∈ fetchKeywordNames tx pid ∨ m ∈ names)) := by
  induction names generalizing tx with
  | nil =>
    exact ⟨tx, rfl, rfl, rfl, rfl, rfl, h, by simp⟩
  | cons n rest ih =>
    cases hfk : findKeywordByName tx.keywords n with
    | some kw =>
      have hkmem : kw ∈ tx.keywords := List.mem_of_find?_eq_some hfk
      have hkname : kw.name = n := by simpa using List.find?_some hfk
      have hffind : tx.keywords.find? (fun x => x.id == kw.id) = some kw :=
        find?_id_of_mem _ _ hkmem h.idsNodup
      by_cases hin : (pid, kw.id) ∈ tx.kwAssocs
      · have happ : appendKwAssoc tx pid kw.id = tx := by
          unfold appendKwAssoc
          rw [if_pos (by simpa using hin)]
        have hnmem : n ∈ fetchKeywordNames tx pid := by
          have hx := name_mem_fetch tx pid kw.id kw hin hffind
          rwa [hkname] at hx
        obtain ⟨tx', h1, h2, h3, h4, h5, h6, h7⟩ := ih tx h
        refine ⟨tx', ?_, h2, h3, h4, h5, h6, ?_⟩
        · simp only [processKeywords, hfk, noFaults, Bool.false_eq_true, if_false]
          rw [happ]
          exact h1
        · intro m
          rw [h7 m]
          constructor
          · rintro (hm | hm)
            · exact Or.inl hm
            · exact Or.inr (List.mem_cons_of_mem n hm)
          · rintro (hm | hm)
            · exact Or.inl hm
            · rcases List.mem_cons.mp hm with rfl | hm2
              · exact Or.inl hnmem
              · exact Or.inr hm2
      · have htx1e : appendKwAssoc tx pid kw.id
            = { tx with kwAssocs := tx.kwAssocs ++ [(pid, kw.id)] } := by
          unfold appendKwAssoc
          rw [if_neg (by simpa using hin)]
        have hfetch1 : fetchKeywordNames (appendKwAssoc tx pid kw.id) pid
            = fetchKeywordNames tx pid ++ [n] := by
          rw [htx1e, fetch_append_assoc tx pid kw.id kw hffind, hkname]
        have hnnot : n ∉ fetchKeywordNames tx pid := by
          intro hmem
          unfold fetchKeywordNames at hmem
          obtain ⟨e, he, hmap⟩ := List.mem_filterMap.mp hmem
          cases hf2 : tx.keywords.find? (fun x => x.id == e.2) with
          | none =>
            rw [hf2] at hmap
            cases hmap
          | some k2 =>
            rw [hf2] at hmap
            simp at hmap
            have hk2mem := List.mem_of_find?_eq_some hf2
            have hk2id : k2.id = e.2 := by simpa using List.find?_some hf2
            have hk2kw : k2 = kw := List.inj_on_of_nodup_map h.namesNodup hk2mem hkmem
              (by rw [hmap, hkname])
            have hef := List.mem_filter.mp he
            have he1 : e.1 = pid := by simpa using hef.2
            have hepair : e = (pid, kw.id) := by
              cases e with
              | mk e1 e2 =>
                simp only [Prod.mk.injEq]
                constructor
                · simpa using he1
                · rw [← hk2kw]
                  simpa using hk2id.symm
            rw [hepair] at hef
            exact hin hef.1
        have hinv1 : KwInv (appendKwAssoc tx pid kw.id) pid := by
          rw [htx1e]
          refine ⟨h.namesNodup, h.idsNodup, h.idsLt, ?_, ?_⟩
          · intro e he hp
            rcases List.mem_append.mp he with hold | hnew
            · exact h.assocValid e hold hp
            · have hh : e = (pid, kw.id) := by simpa using hnew
              exact ⟨kw, hkmem, by rw [hh]⟩
          · rw [fetch_append_assoc tx pid kw.id kw hffind, hkname, List.nodup_append]
            refine ⟨h.fetchedNodup, List.nodup_singleton n, ?_⟩
            intro m hm1 hm2
            rw [List.mem_singleton] at hm2
            subst hm2
            exact hnnot hm1
        obtain ⟨tx', h1, h2, h3, h4, h5, h6, h7⟩ := ih (appendKwAssoc tx pid kw.id) hinv1
        refine ⟨tx', ?_, ?_, ?_, ?_, ?_, h6, ?_⟩
        · simp only [processKeywords, hfk, noFaults, Bool.false_eq_true, if_false]
          exact h1
        · rw [h2, htx1e]
        · rw [h3, htx1e]
        · rw [h4, htx1e]
        · rw [h5, htx1e]
        · intro m
          rw [h7 m, hfetch1]
          simp only [List.mem_append, List.mem_singleton, List.mem_cons]
          tauto
    | none =>
      have hnone : ∀ k ∈ tx.keywords, k.name ≠ n := by
        intro k hk
        have hx := List.find?_eq_none.mp hfk k hk
        simpa using hx
      have hnotin : (pid, tx.nextKwID) ∉ tx.kwAssocs := by
        intro hmem
        obtain ⟨k1, hk1, hid⟩ := h.assocValid (pid, tx.nextKwID) hmem rfl
        have hlt := h.idsLt k1 hk1
        simp at hid
        omega
      have hffind : (tx.keywords ++ [(⟨tx.nextKwID, n⟩ : Keyword)]).find?
          (fun x => x.id == tx.nextKwID) = some ⟨tx.nextKwID, n⟩ := by
        rw [List.find?_append]
        rw [List.find?_eq_none.mpr (fun x hx => by
          have := h.idsLt x hx
          simp
          omega)]
        simp
      have htx1e : appendKwAssoc
            { tx with keywords := tx.keywords ++ [⟨tx.nextKwID, n⟩], nextKwID := tx.nextKwID + 1 } pid tx.nextKwID
          = { tx with keywords := tx.keywords ++ [⟨tx.nextKwID, n⟩], nextKwID := tx.nextKwID + 1, kwAssocs := tx.kwAssocs ++ [(pid, tx.nextKwID)] } := by
        unfold appendKwAssoc
        rw [if_neg (by simpa using hnotin)]
      have hfetchK : fetchKeywordNames
          { tx with keywords := tx.keywords ++ [⟨tx.nextKwID, n⟩], nextKwID := tx.nextKwID + 1 } pid
          = fetchKeywordNames tx pid :=
        fetch_keywords_extend tx pid ⟨tx.nextKwID, n⟩ h.assocValid
      have hfetch1 : fetchKeywordNames
          { tx with keywords := tx.keywords ++ [⟨tx.nextKwID, n⟩], nextKwID := tx.nextKwID + 1, kwAssocs := tx.kwAssocs ++ [(pid, tx.nextKwID)] } pid
          = fetchKeywordNames tx pid ++ [n] := by
        have hx := fetch_append_assoc
          { tx with keywords := tx.keywords ++ [⟨tx.nextKwID, n⟩], nextKwID := tx.nextKwID + 1 } pid tx.nextKwID ⟨tx.nextKwID, n⟩ hffind
        rw [hfetchK] at hx
        exact hx
      have hnnot : n ∉ fetchKeywordNames tx pid := by
        intro hmem
        obtain ⟨k1, hk1, hname1⟩ := mem_fetch_imp_name tx pid n hmem
        exact hnone k1 hk1 hname1
      have hinv1 : KwInv
          { tx with keywords := tx.keywords ++ [⟨tx.nextKwID, n⟩], nextKwID := tx.nextKwID + 1, kwAssocs := tx.kwAssocs ++ [(pid, tx.nextKwID)] } pid := by
        refine ⟨?_, ?_, ?_, ?_, ?_⟩
        · dsimp only
          rw [List.map_append, List.nodup_append]
          refine ⟨h.namesNodup, by simp, ?_⟩
          intro m hm1 hm2
          simp at hm2
          subst hm2
          obtain ⟨k1, hk1m, hk1n⟩ := List.mem_map.mp hm1
          exact hnone k1 hk1m hk1n
        · dsimp only
          rw [List.map_append, List.nodup_append]
          refine ⟨h.idsNodup, by simp, ?_⟩
          intro m hm1 hm2
          simp at hm2
          subst hm2
          obtain ⟨k1, hk1m, hk1i⟩ := List.mem_map.mp hm1
          have hlt := h.idsLt k1 hk1m
          omega
        · intro k hk
          dsimp only at hk ⊢
          rcases List.mem_append.mp hk with hold | hnew
          · have hlt := h.idsLt k hold
            omega
          · have hk2 : k = ⟨tx.nextKwID, n⟩ := by simpa using hnew
            rw [hk2]
            dsimp only
            omega
        · intro e he hp
          dsimp only at he ⊢
          rcases List.mem_append.mp he with hold | hnew
          · obtain ⟨k1, hk1, hid⟩ := h.assocValid e hold hp
            exact ⟨k1, List.mem_append_left _ hk1, hid⟩
          · have hh : e = (pid, tx.nextKwID) := by simpa using hnew
            refine ⟨⟨tx.nextKwID, n⟩, List.mem_append_right _ (by simp), by rw [hh]⟩
        · rw [hfetch1, List.nodup_append]
          exact ⟨h.fetchedNodup, List.nodup_singleton n, fun m hm1 hm2 => by
            rw [List.mem_singleton] at hm2
            subst hm2
            exact hnnot hm1⟩
      obtain ⟨tx', h1, h2, h3, h4, h5, h6, h7⟩ := ih
        { tx with keywords := tx.keywords ++ [⟨tx.nextKwID, n⟩], nextKwID := tx.nextKwID + 1, kwAssocs := tx.kwAssocs ++ [(pid, tx.nextKwID)] } hinv1
      refine ⟨tx', ?_, by rw [h2], by rw [h3], by rw [h4], by rw [h5], h6, ?_⟩
      · simp only [processKeywords, hfk, noFaults, Bool.false_eq_true, if_false]
        rw [htx1e]
        exact h1
      · intro m
        rw [h7 m, hfetch1]
        simp only [List.mem_append, List.mem_singleton, List.mem_cons]
        tauto

/-- Specification of the author loop on success: with every id present it
succeeds, appends exactly one ordered row per input position starting at
order `i`, and touches nothing else. -/
theorem processAuthors_spec (pid : Nat) (aids : List Nat) (i : Nat) (tx : DB)
    (h : ∀ a ∈ aids, (findAuthorByID tx a).isSome) :
    ∃ tx', processAuthors noFaults pid i aids tx = .ok tx'
      ∧ tx'.pubs = tx.pubs ∧ tx'.keywords = tx.keywords ∧ tx'.authors = tx.authors
      ∧ tx'.kwAssocs = tx.kwAssocs ∧ tx'.nextPubID = tx.nextPubID
      ∧ tx'.nextKwID = tx.nextKwID
      ∧ tx'.pubAuthors = tx.pubAuthors
          ++ (aids.enumFrom i).map (fun p => ⟨pid, p.2, p.1⟩) := by
  induction aids generalizing i tx with
  | nil =>
    exact ⟨tx, rfl, rfl, rfl, rfl, rfl, rfl, rfl, by simp⟩
  | cons a rest ih =>
    have hsome := h a (List.mem_cons_self a rest)
    obtain ⟨x, hx⟩ := Option.isSome_iff_exists.mp hsome
    have hxid : x.id = a := by
      simpa using List.find?_some (show tx.authors.find? (fun y => y.id == a) = some x from hx)
    obtain ⟨tx', h1, h2, h3, h4, h5, h6, h7, h8⟩ := ih (i + 1)
      { tx with pubAuthors := tx.pubAuthors ++ [⟨pid, x.id, i⟩] }
      (fun b hb => by
        rw [findAuthorByID_ext rfl b]
        exact h b (List.mem_cons_of_mem a hb))
    refine ⟨tx', ?_, by rw [h2], by rw [h3], by rw [h4], by rw [h5], by rw [h6],
      by rw [h7], ?_⟩
    · simp only [processAuthors, hx, noFaults, Bool.false_eq_true, if_false]
      exact h1
    · rw [h8]
      dsimp only
      rw [List.append_assoc, List.enumFrom_cons]
      simp [hxid]

/-- Transport of the keyword loop specification along a given ok result. -/
theorem processKeywords_spec_of_eq (pid : Nat) (names : List String) (tx tx1 : DB)
    (hinv : KwInv tx pid)
    (heq : processKeywords noFaults pid names tx = .ok tx1) :
    tx1.pubs = tx.pubs ∧ tx1.authors = tx.authors
    ∧ tx1.pubAuthors = tx.pubAuthors ∧ tx1.nextPubID = tx.nextPubID
    ∧ KwInv tx1 pid
    ∧ (∀ m, m ∈ fetchKeywordNames tx1 pid
        ↔ (m ∈ fetchKeywordNames tx pid ∨ m ∈ names)) := by
  obtain ⟨tx2, h1, hrest⟩ := processKeywords_spec pid names tx hinv
  rw [heq] at h1
  cases h1
  exact hrest

/-- Transport of the author loop specification along a given ok result. -/
theorem processAuthors_spec_of_eq (pid : Nat) (aids : List Nat) (i : Nat) (tx tx1 : DB)
    (h : ∀ a ∈ aids, (findAuthorByID tx a).isSome)
    (heq : processAuthors noFaults pid i aids tx = .ok tx1) :
    tx1.pubs = tx.pubs ∧ tx1.keywords = tx.keywords ∧ tx1.authors = tx.authors
    ∧ tx1.kwAssocs = tx.kwAssocs ∧ tx1.nextPubID = tx.nextPubID
    ∧ tx1.nextKwID = tx.nextKwID
    ∧ tx1.pubAuthors = tx.pubAuthors
        ++ (aids.enumFrom i).map (fun p => ⟨pid, p.2, p.1⟩) := by
  obtain ⟨tx2, h1, hrest⟩ := processAuthors_spec pid aids i tx h
  rw [heq] at h1
  cases h1
  exact hrest

/-- Helper: whatever the faults, appending a join row touches nothing else. -/
theorem appendKwAssoc_frame (tx : DB) (p k : Nat) :
    (appendKwAssoc tx p k).pubs = tx.pubs ∧ (appendKwAssoc tx p k).authors = tx.authors
    ∧ (appendKwAssoc tx p k).pubAuthors = tx.pubAuthors
    ∧ (appendKwAssoc tx p k).nextPubID = tx.nextPubID := by
  unfold appendKwAssoc
  split <;> exact ⟨rfl, rfl, rfl, rfl⟩

/-- Helper: whatever the faults, a successful keyword loop only changes the
keyword table, its join rows and the keyword id counter. -/
theorem processKeywords_frame (f : Faults) (pid : Nat) (names : List String)
    (tx tx' : DB) (h : processKeywords f pid names tx = .ok tx') :
    tx'.pubs = tx.pubs ∧ tx'.authors = tx.authors ∧ tx'.pubAuthors = tx.pubAuthors
    ∧ tx'.nextPubID = tx.nextPubID := by
  induction names generalizing tx with
  | nil =>
    simp [processKeywords] at h
    rw [← h]
    exact ⟨rfl, rfl, rfl, rfl⟩
  | cons n rest ih =>
    cases hfk : findKeywordByName tx.keywords n with
    | some kw =>
      simp only [processKeywords, hfk] at h
      split at h
      · cases h
      · obtain ⟨a1, a2, a3, a4⟩ := ih _ h
        obtain ⟨b1, b2, b3, b4⟩ := appendKwAssoc_frame tx pid kw.id
        exact ⟨a1.trans b1, a2.trans b2, a3.trans b3, a4.trans b4⟩
    | none =>
      simp only [processKeywords, hfk] at h
      split at h
      · cases h
      · split at h
        · cases h
        · obtain ⟨a1, a2, a3, a4⟩ := ih _ h
          obtain ⟨b1, b2, b3, b4⟩ := appendKwAssoc_frame
            { tx with keywords := tx.keywords ++ [⟨tx.nextKwID, n⟩], nextKwID := tx.nextKwID + 1 }
            pid tx.nextKwID
          exact ⟨a1.trans b1, a2.trans b2, a3.trans b3, a4.trans b4⟩

/-- Helper: whatever the faults, a successful author loop only appends
publication-author rows. -/
theorem processAuthors_frame (f : Faults) (pid i : Nat) (aids : List Nat) (tx tx' : DB)
    (h : processAuthors f pid i aids tx = .ok tx') :
    tx'.pubs = tx.pubs ∧ tx'.keywords = tx.keywords ∧ tx'.authors = tx.authors
    ∧ tx'.kwAssocs = tx.kwAssocs ∧ tx'.nextPubID = tx.nextPubID
    ∧ tx'.nextKwID = tx.nextKwID := by
  induction aids generalizing i tx with
  | nil =>
    simp [processAuthors] at h
    rw [← h]
    exact ⟨rfl, rfl, rfl, rfl, rfl, rfl⟩
  | cons a rest ih =>
    cases hfa : findAuthorByID tx a with
    | none =>
      simp only [processAuthors, hfa] at h
      cases h
    | some x =>
      simp only [processAuthors, hfa] at h
      split at h
      · cases h
      · exact ih (i + 1) { tx with pubAuthors := tx.pubAuthors ++ [⟨pid, x.id, i⟩] } h

/-- Helper: the keyword stage of an update on the empty list is a no-op. -/
theorem updateKeywordsStage_nil (f : Faults) (pid : Nat) (tx : DB) :
    updateKeywordsStage f pid [] tx = .ok tx := rfl

/-- Helper: the author stage of an update on the empty list is a no-op. -/
theorem updateAuthorsStage_nil (f : Faults) (pid : Nat) (tx : DB) :
    updateAuthorsStage f pid [] tx = .ok tx := rfl

/-- Helper: whatever the faults, a successful update keyword stage leaves
publications, authors and author rows alone. -/
theorem updateKeywordsStage_frame (f : Faults) (pid : Nat) (names : List String)
    (tx tx' : DB) (h : updateKeywordsStage f pid names tx = .ok tx') :
    tx'.pubs = tx.pubs ∧ tx'.authors = tx.authors ∧ tx'.pubAuthors = tx.pubAuthors
    ∧ tx'.nextPubID = tx.nextPubID := by
  unfold updateKeywordsStage at h
  split at h
  · cases h
    exact ⟨rfl, rfl, rfl, rfl⟩
  · split at h
    · cases h
    · exact processKeywords_frame f pid names
        { tx with kwAssocs := tx.kwAssocs.filter (fun e => e.1 != pid) } tx' h

/-- Helper: whatever the faults, a successful update author stage leaves
publications, keywords and keyword rows alone. -/
theorem updateAuthorsStage_frame (f : Faults) (pid : Nat) (aids : List Nat)
    (tx tx' : DB) (h : updateAuthorsStage f pid aids tx = .ok tx') :
    tx'.pubs = tx.pubs ∧ tx'.keywords = tx.keywords ∧ tx'.authors = tx.authors
    ∧ tx'.kwAssocs = tx.kwAssocs ∧ tx'.nextPubID = tx.nextPubID
    ∧ tx'.nextKwID = tx.nextKwID := by
  unfold updateAuthorsStage at h
  split at h
  · cases h
    exact ⟨rfl, rfl, rfl, rfl, rfl, rfl⟩
  · split at h
    · cases h
    · exact processAuthors_frame f pid 0 aids
        { tx with pubAuthors := tx.pubAuthors.filter (fun r => r.publicationID != pid) } tx' h

/-- Helper: the fetched names only depend on the keyword table and rows. -/
theorem fetch_congr (a b : DB) (pid : Nat) (hkw : a.keywords = b.keywords)
    (has : a.kwAssocs = b.kwAssocs) :
    fetchKeywordNames a pid = fetchKeywordNames b pid := by
  unfold fetchKeywordNames
  rw [hkw, has]

/-- Helper: the transaction state of a create satisfies the keyword loop
invariant for the fresh publication id. -/
theorem kwInv_of_WF_create (db : DB) (hwf : db.WF) (pub : Publication) :
    KwInv { db with pubs := db.pubs ++ [pub], nextPubID := db.nextPubID + 1 }
      db.nextPubID := by
  refine ⟨hwf.kwNamesNodup, hwf.kwIdsNodup, hwf.kwIdsLt, ?_, ?_⟩
  · intro e he hp
    have hlt := hwf.kwAssocPubLt e he
    exact absurd hp (by omega)
  · have hz : fetchKeywordNames
        { db with pubs := db.pubs ++ [pub], nextPubID := db.nextPubID + 1 }
        db.nextPubID = [] :=
      fetch_empty_of_lt _ _ (fun e he => hwf.kwAssocPubLt e he)
    rw [hz]
    exact List.nodup_nil

/-- Helper: the cleared transaction state of an update satisfies the keyword
loop invariant for the target publication id. -/
theorem kwInv_of_WF_cleared (db : DB) (hwf : db.WF) (pid : Nat)
    (pubsNew : List Publication) :
    KwInv { db with pubs := pubsNew, kwAssocs := db.kwAssocs.filter (fun e => e.1 != pid) } pid := by
  refine ⟨hwf.kwNamesNodup, hwf.kwIdsNodup, hwf.kwIdsLt, ?_, ?_⟩
  · intro e he hp
    have hne := List.of_mem_filter he
    simp at hne
    exact absurd hp hne
  · unfold fetchKeywordNames
    dsimp only
    rw [List.filter_filter, List.filter_eq_nil.mpr (fun e he => by simp)]
    exact List.nodup_nil

/-- Helper: nothing is fetched for a publication id above every join row. -/
theorem not_mem_fetch_of_lt (x : DB) (pid : Nat) (m : String)
    (h : ∀ e ∈ x.kwAssocs, e.1 < pid) : m ∉ fetchKeywordNames x pid := by
  rw [fetch_empty_of_lt x pid h]
  simp

/-- Specification of the update keyword stage on a non-empty list: it clears
the old join rows of the publication, so afterwards exactly the input names
are fetched. -/
theorem updateKeywordsStage_spec_of_eq (pid : Nat) (names : List String) (tx tx1 : DB)
    (hinv : KwInv { tx with kwAssocs := tx.kwAssocs.filter (fun e => e.1 != pid) } pid)
    (hne : names ≠ [])
    (heq : updateKeywordsStage noFaults pid names tx = .ok tx1) :
    tx1.pubs = tx.pubs ∧ tx1.authors = tx.authors ∧ tx1.pubAuthors = tx.pubAuthors
    ∧ tx1.nextPubID = tx.nextPubID ∧ KwInv tx1 pid
    ∧ (∀ m, m ∈ fetchKeywordNames tx1 pid ↔ m ∈ names) := by
  unfold updateKeywordsStage at heq
  rw [if_neg (by simpa using hne)] at heq
  rw [if_neg (show ¬ (noFaults.clearKwFail = true) by decide)] at heq
  obtain ⟨h1, h2, h3, h4, h5, h6⟩ :=
    processKeywords_spec_of_eq pid names _ tx1 hinv heq
  refine ⟨h1, h2, h3, h4, h5, ?_⟩
  intro m
  rw [h6 m]
  have hmt : m ∉ fetchKeywordNames
      { tx with kwAssocs := tx.kwAssocs.filter (fun e => e.1 != pid) } pid := by
    rw [fetch_cleared]
    simp
  constructor
  · rintro (hm | hm)
    · exact absurd hm hmt
    · exact hm
  · exact Or.inr

/-- Specification of the update author stage on a non-empty list: it deletes
the old rows of the publication and afterwards its author rows are exactly
one ordered row per input position. -/
theorem updateAuthorsStage_spec_of_eq (pid : Nat) (aids : List Nat) (tx tx1 : DB)
    (hauth : ∀ a ∈ aids, (findAuthorByID tx a).isSome)
    (hne : aids ≠ [])
    (heq : updateAuthorsStage noFaults pid aids tx = .ok tx1) :
    tx1.pubs = tx.pubs ∧ tx1.keywords = tx.keywords ∧ tx1.authors = tx.authors
    ∧ tx1.kwAssocs = tx.kwAssocs ∧ tx1.nextPubID = tx.nextPubID
    ∧ tx1.nextKwID = tx.nextKwID
    ∧ authorRows tx1 pid = (aids.enumFrom 0).map (fun p => ⟨pid, p.2, p.1⟩) := by
  unfold updateAuthorsStage at heq
  rw [if_neg (by simpa using hne)] at heq
  rw [if_neg (show ¬ (noFaults.clearAuthorsFail = true) by decide)] at heq
  obtain ⟨h1, h2, h3, h4, h5, h6, h7⟩ := processAuthors_spec_of_eq pid aids 0 _ tx1
    (fun a ha => by rw [findAuthorByID_ext rfl a]; exact hauth a ha) heq
  refine ⟨h1, h2, h3, h4, h5, h6, ?_⟩
  unfold authorRows
  rw [h7]
  dsimp only
  exact authorRows_append_fresh _ _ pid
    (fun r hr => by
      have hx := List.of_mem_filter hr
      simpa using hx)
    (fun r hr => by
      obtain ⟨p, hp, hpe⟩ := List.mem_map.mp hr
      rw [← hpe])

/-- Helper: with every author id present, the update author stage never
errors under the no-fault configuration. -/
theorem updateAuthorsStage_noFaults_ne_error (pid : Nat) (aids : List Nat) (tx : DB)
    (hauth : ∀ a ∈ aids, (findAuthorByID tx a).isSome) (r : Response)
    (heq : updateAuthorsStage noFaults pid aids tx = .error r) : False := by
  unfold updateAuthorsStage at heq
  by_cases hne : aids.isEmpty
  · rw [if_pos hne] at heq
    cases heq
  · rw [if_neg hne] at heq
    rw [if_neg (show ¬ (noFaults.clearAuthorsFail = true) by decide)] at heq
    obtain ⟨tx2, h2, _⟩ := processAuthors_spec pid aids 0
      { tx with pubAuthors := tx.pubAuthors.filter (fun r => r.publicationID != pid) }
      (fun a ha => by rw [findAuthorByID_ext rfl a]; exact hauth a ha)
    rw [h2] at heq
    cases heq

/-- C5: a committed create reports 201, and a fetch right after it sees the
authors exactly in input order, each association row's order column equal to
the author's 0-based input position, and exactly the deduplicated set of the
input keyword names (no duplicates fetched, and a name is fetched iff it
occurs in the input). -/
theorem create_fetch_order_and_dedup (u : Nat) (input : PublicationInput) (db : DB)
    (hwf : db.WF) (hts : input.title ≠ "")
    (hdate : (parseDate input.publicationDate).isSome)
    (hdoi : doiConflict db db.nextPubID input.doi = false)
    (hauth : ∀ a ∈ input.authors, (findAuthorByID db a).isSome) :
    (createPublication noFaults (some u) input db).2
        = ⟨201, "Publication created successfully"⟩
    ∧ authorRows (createPublication noFaults (some u) input db).1 db.nextPubID
        = (input.authors.enumFrom 0).map (fun p => ⟨db.nextPubID, p.2, p.1⟩)
    ∧ (fetchKeywordNames (createPublication noFaults (some u) input db).1 db.nextPubID).Nodup
    ∧ (∀ m, m ∈ fetchKeywordNames (createPublication noFaults (some u) input db).1
          db.nextPubID ↔ m ∈ input.keywords) := by
  obtain ⟨d, hd⟩ := Option.isSome_iff_exists.mp hdate
  have hrun : ∃ tx2, createPublication noFaults (some u) input db
      = (tx2, ⟨201, "Publication created successfully"⟩)
    ∧ authorRows tx2 db.nextPubID
        = (input.authors.enumFrom 0).map (fun p => ⟨db.nextPubID, p.2, p.1⟩)
    ∧ (fetchKeywordNames tx2 db.nextPubID).Nodup
    ∧ (∀ m, m ∈ fetchKeywordNames tx2 db.nextPubID ↔ m ∈ input.keywords) := by
    unfold createPublication
    dsimp only
    rw [if_neg hts]
    simp only [hd]
    rw [if_neg (show ¬ (noFaults.beginFail = true) by decide)]
    rw [if_neg (show ¬ ((noFaults.insertPubFail
      || doiConflict db db.nextPubID input.doi) = true) by simp [noFaults, hdoi])]
    split
    · next r heq => exact ((processKeywords_noFaults_ne_error _ _ _ _ heq).elim)
    · next tx1 heq =>
      obtain ⟨hkpubs, hkauth, hkpa, hknp, hkinv, hkmem⟩ :=
        processKeywords_spec_of_eq db.nextPubID input.keywords _ tx1
          (kwInv_of_WF_create db hwf _) heq
      have hauth1 : ∀ a ∈ input.authors, (findAuthorByID tx1 a).isSome := by
        intro a ha
        rw [findAuthorByID_ext (show tx1.authors = db.authors by simpa using hkauth) a]
        exact hauth a ha
      split
      · next r heq2 =>
        obtain ⟨tx3, h3, _⟩ := processAuthors_spec db.nextPubID input.authors 0 tx1 hauth1
        rw [heq2] at h3
        cases h3
      · next tx2 heq2 =>
        obtain ⟨hapubs, hakw, haauth, haassoc, hanp, hankw, hapa⟩ :=
          processAuthors_spec_of_eq db.nextPubID input.authors 0 tx1 tx2 hauth1 heq2
        rw [if_neg (show ¬ (noFaults.commitFail = true) by decide)]
        refine ⟨tx2, rfl, ?_, ?_, ?_⟩
        · unfold authorRows
          rw [hapa]
          rw [show tx1.pubAuthors = db.pubAuthors by simpa using hkpa]
          exact authorRows_append_fresh db.pubAuthors _ db.nextPubID
            (fun r hr => by
              have hlt := hwf.pubAuthorPubLt r hr
              omega)
            (fun r hr => by
              obtain ⟨p, hp, hpe⟩ := List.mem_map.mp hr
              rw [← hpe])
        · rw [fetch_congr tx2 tx1 db.nextPubID hakw haassoc]
          exact hkinv.fetchedNodup
        · intro m
          rw [fetch_congr tx2 tx1 db.nextPubID hakw haassoc, hkmem m]
          constructor
          · rintro (hm | hm)
            · exact absurd hm (not_mem_fetch_of_lt _ _ _
                (fun e he => hwf.kwAssocPubLt e he))
            · exact hm
          · exact Or.inr
  obtain ⟨tx2, he, h1, h2, h3⟩ := hrun
  rw [he]
  exact ⟨rfl, h1, h2, h3⟩

/-- C4: an update that replaces the keyword and author lists leaves no
association row from before the update alive: afterwards the publication's
author rows are exactly one fresh ordered row per input position, and a
keyword name is fetched iff it occurs in the input list (so every prior
association not re-specified is gone) — full replace, not merge. -/
theorem update_full_replace (u pid : Nat) (input : PublicationInput) (db : DB)
    (hwf : db.WF) (hex : (findPubByID db pid).isSome) (hts : input.title ≠ "")
    (hdate : (parseDateOpt input.publicationDate).isSome)
    (hdoi : doiConflict db pid input.doi = false)
    (hauth : ∀ a ∈ input.authors, (findAuthorByID db a).isSome)
    (hkne : input.keywords ≠ []) (hane : input.authors ≠ []) :
    (updatePublication noFaults (some u) pid input db).2
        = ⟨200, "Publication updated successfully"⟩
    ∧ authorRows (updatePublication noFaults (some u) pid input db).1 pid
        = (input.authors.enumFrom 0).map (fun p => ⟨pid, p.2, p.1⟩)
    ∧ (fetchKeywordNames (updatePublication noFaults (some u) pid input db).1 pid).Nodup
    ∧ (∀ m, m ∈ fetchKeywordNames (updatePublication noFaults (some u) pid input db).1 pid
        ↔ m ∈ input.keywords) := by
  obtain ⟨pub, hpub⟩ := Option.isSome_iff_exists.mp hex
  obtain ⟨dOpt, hd⟩ := Option.isSome_iff_exists.mp hdate
  have hrun : ∃ tx2, updatePublication noFaults (some u) pid input db
      = (tx2, ⟨200, "Publication updated successfully"⟩)
    ∧ authorRows tx2 pid = (input.authors.enumFrom 0).map (fun p => ⟨pid, p.2, p.1⟩)
    ∧ (fetchKeywordNames tx2 pid).Nodup
    ∧ (∀ m, m ∈ fetchKeywordNames tx2 pid ↔ m ∈ input.keywords) := by
    unfold updatePublication
    dsimp only
    simp only [hpub]
    rw [if_neg hts]
    simp only [hd]
    rw [if_neg (show ¬ (noFaults.beginFail = true) by decide)]
    rw [if_neg (show ¬ ((noFaults.updatePubFail || doiConflict db pid input.doi) = true)
      by simp [noFaults, hdoi])]
    split
    · next r heq => exact ((updateKeywordsStage_noFaults_ne_error _ _ _ _ heq).elim)
    · next tx1 heq =>
      obtain ⟨hkpubs, hkauth, hkpa, hknp, hkinv, hkmem⟩ :=
        updateKeywordsStage_spec_of_eq pid input.keywords
          { db with pubs := db.pubs.map (fun p =>
              if p.id == pid then updateScalars pub input dOpt else p) } tx1
          (kwInv_of_WF_cleared db hwf pid (db.pubs.map (fun p =>
              if p.id == pid then updateScalars pub input dOpt else p))) hkne heq
      have hauth1 : ∀ a ∈ input.authors, (findAuthorByID tx1 a).isSome := by
        intro a ha
        rw [findAuthorByID_ext (show tx1.authors = db.authors by simpa using hkauth) a]
        exact hauth a ha
      split
      · next r heq2 =>
        exact ((updateAuthorsStage_noFaults_ne_error pid input.authors tx1 hauth1 r
          heq2).elim)
      · next tx2 heq2 =>
        obtain ⟨hapubs, hakw, haauth, haassoc, hanp, hankw, harows⟩ :=
          updateAuthorsStage_spec_of_eq pid input.authors tx1 tx2 hauth1 hane heq2
        rw [if_neg (show ¬ (noFaults.commitFail = true) by decide)]
        refine ⟨tx2, rfl, harows, ?_, ?_⟩
        · rw [fetch_congr tx2 tx1 pid hakw haassoc]
          exact hkinv.fetchedNodup
        · intro m
          rw [fetch_congr tx2 tx1 pid hakw haassoc]
          exact hkmem m
  obtain ⟨tx2, he, h1, h2, h3⟩ := hrun
  rw [he]
  exact ⟨rfl, h1, h2, h3⟩

/-- C10: an update whose keyword list is empty leaves the keyword table and
every keyword join row unchanged; one whose author list is empty leaves
every ordered author row unchanged (both for every fault configuration);
and a successful update with both lists empty rewrites only the scalar
columns of the target publication row. -/
theorem update_empty_lists_frame :
    (∀ (f : Faults) (u : Option Nat) (pid : Nat) (input : PublicationInput) (db : DB),
      input.keywords = [] →
      (updatePublication f u pid input db).1.kwAssocs = db.kwAssocs
      ∧ (updatePublication f u pid input db).1.keywords = db.keywords)
    ∧ (∀ (f : Faults) (u : Option Nat) (pid : Nat) (input : PublicationInput) (db : DB),
      input.authors = [] →
      (updatePublication f u pid input db).1.pubAuthors = db.pubAuthors)
    ∧ (∀ (u : Nat) (pid : Nat) (input : PublicationInput) (db : DB),
      input.keywords = [] → input.authors = [] →
      (findPubByID db pid).isSome → input.title ≠ "" →
      (parseDateOpt input.publicationDate).isSome →
      doiConflict db pid input.doi = false →
      ∃ pub dOpt, findPubByID db pid = some pub
        ∧ parseDateOpt input.publicationDate = some dOpt
        ∧ updatePublication noFaults (some u) pid input db
          = ({ db with pubs := db.pubs.map (fun p =>
                if p.id == pid then updateScalars pub input dOpt else p) },
             ⟨200, "Publication updated successfully"⟩)) := by
  refine ⟨?_, ?_, ?_⟩
  · intro f u pid input db hk
    unfold updatePublication
    cases u
    · exact ⟨rfl, rfl⟩
    · dsimp only
      split
      · exact ⟨rfl, rfl⟩
      · split
        · exact ⟨rfl, rfl⟩
        · split
          · exact ⟨rfl, rfl⟩
          · split
            · exact ⟨rfl, rfl⟩
            · split
              · exact ⟨rfl, rfl⟩
              · rw [hk]
                simp only [updateKeywordsStage_nil]
                split
                · exact ⟨rfl, rfl⟩
                · next tx2 heq2 =>
                  split
                  · exact ⟨rfl, rfl⟩
                  · have hfr := updateAuthorsStage_frame _ _ _ _ _ heq2
                    exact ⟨hfr.2.2.2.1, hfr.2.1⟩
  · intro f u pid input db ha
    unfold updatePublication
    cases u
    · rfl
    · dsimp only
      split
      · rfl
      · split
        · rfl
        · split
          · rfl
          · split
            · rfl
            · split
              · rfl
              · split
                · rfl
                · next tx1 heq1 =>
                  rw [ha]
                  simp only [updateAuthorsStage_nil]
                  split
                  · rfl
                  · have hfr := updateKeywordsStage_frame _ _ _ _ _ heq1
                    exact hfr.2.2.1
  · intro u pid input db hk ha hex hts hdate hdoi
    obtain ⟨pub, hpub⟩ := Option.isSome_iff_exists.mp hex
    obtain ⟨dOpt, hd⟩ := Option.isSome_iff_exists.mp hdate
    refine ⟨pub, dOpt, hpub, hd, ?_⟩
    unfold updatePublication
    dsimp only
    simp only [hpub]
    rw [if_neg hts]
    simp only [hd]
    rw [if_neg (show ¬ (noFaults.beginFail = true) by decide)]
    rw [if_neg (show ¬ ((noFaults.updatePubFail || doiConflict db pid input.doi) = true)
      by simp [noFaults, hdoi])]
    rw [hk, ha]
    simp only [updateKeywordsStage_nil, updateAuthorsStage_nil]
    rw [if_neg (show ¬ (noFaults.commitFail = true) by decide)]

/-- Witness for the C5 theorem: the sample create (keywords with a
duplicate, one author) committed on the sample database. -/
theorem create_fetch_order_and_dedup_wit :
    (createPublication noFaults (some 7) sampleInput sampleDB).2
        = ⟨201, "Publication created successfully"⟩
    ∧ authorRows (createPublication noFaults (some 7) sampleInput sampleDB).1
          sampleDB.nextPubID
        = (sampleInput.authors.enumFrom 0).map (fun p => ⟨sampleDB.nextPubID, p.2, p.1⟩)
    ∧ (fetchKeywordNames (createPublication noFaults (some 7) sampleInput sampleDB).1
        sampleDB.nextPubID).Nodup
    ∧ ("ml" ∈ fetchKeywordNames (createPublication noFaults (some 7) sampleInput sampleDB).1
        sampleDB.nextPubID ↔ "ml" ∈ sampleInput.keywords) :=
  have h := create_fetch_order_and_dedup 7 sampleInput sampleDB
    ⟨by decide, by decide, by decide, by decide, by decide, by decide, by decide⟩
    (by decide) (by decide) (by decide) (by decide)
  ⟨h.1, h.2.1, h.2.2.1, h.2.2.2 "ml"⟩

/-- Witness for the C4 theorem: the sample full-replace update of
publication 1. -/
theorem update_full_replace_wit :
    (updatePublication noFaults (some 7) 1 sampleInput sampleDB2).2
        = ⟨200, "Publication updated successfully"⟩
    ∧ authorRows (updatePublication noFaults (some 7) 1 sampleInput sampleDB2).1 1
        = (sampleInput.authors.enumFrom 0).map (fun p => ⟨1, p.2, p.1⟩)
    ∧ (fetchKeywordNames (updatePublication noFaults (some 7) 1 sampleInput sampleDB2).1
        1).Nodup
    ∧ ("ml" ∈ fetchKeywordNames
          (updatePublication noFaults (some 7) 1 sampleInput sampleDB2).1 1
        ↔ "ml" ∈ sampleInput.keywords) :=
  have h := update_full_replace 7 1 sampleInput sampleDB2
    ⟨by decide, by decide, by decide, by decide, by decide, by decide, by decide⟩
    (by decide) (by decide) (by decide) (by decide) (by decide) (by decide) (by decide)
  ⟨h.1, h.2.1, h.2.2.1, h.2.2.2 "ml"⟩

/-- Witness for the C10 theorem: the empty-list update of publication 1
leaves both association tables untouched and only rewrites scalars. -/
theorem update_empty_lists_frame_wit :
    ((updatePublication noFaults (some 7) 1 sampleInputEmpty sampleDB2).1.kwAssocs
        = sampleDB2.kwAssocs
      ∧ (updatePublication noFaults (some 7) 1 sampleInputEmpty sampleDB2).1.keywords
        = sampleDB2.keywords)
    ∧ (updatePublication noFaults (some 7) 1 sampleInputEmpty sampleDB2).1.pubAuthors
        = sampleDB2.pubAuthors
    ∧ (∃ pub dOpt, findPubByID sampleDB2 1 = some pub
        ∧ parseDateOpt sampleInputEmpty.publicationDate = some dOpt
        ∧ updatePublication noFaults (some 7) 1 sampleInputEmpty sampleDB2
          = ({ sampleDB2 with pubs := sampleDB2.pubs.map (fun p =>
                if p.id == 1 then updateScalars pub sampleInputEmpty dOpt else p) },
             ⟨200, "Publication updated successfully"⟩)) :=
  ⟨update_empty_lists_frame.1 noFaults (some 7) 1 sampleInputEmpty sampleDB2 rfl,
   update_empty_lists_frame.2.1 noFaults (some 7) 1 sampleInputEmpty sampleDB2 rfl,
   update_empty_lists_frame.2.2 7 1 sampleInputEmpty sampleDB2 rfl rfl (by decide)
     (by decide) (by decide) (by decide)⟩

end FreeScholar
